import Mathlib

/-!
Verification of the Cloudreve filesystem change-notification pipeline and the
AES-CTR random-access streaming cryptor, as a shallow embedding of the Go
source (pkg/filemanager/eventhub and the encrypt package).

Machine bytes are modelled as natural numbers below 256, byte slices as lists
of naturals, and 64-bit signed offsets as integers (all call sites keep them
non-negative where the Go code requires it).  Fallible operations return
values of type Except or Option; a mutation of a Go receiver is modelled by
returning the updated record alongside the method result.
-/

set_option autoImplicit false

namespace Cloudreve

variable {σ : Type}

/-! ## Byte-string arithmetic helpers (big-endian semantics of counters) -/

/-- Big-endian numeric value of a byte list: index 0 is the most significant
byte, matching the comment in the Go source that the counter is a big-endian
128-bit integer. -/
def beVal : List Nat → Nat
  | [] => 0
  | b :: rest => b * 256 ^ rest.length + beVal rest

/-- The list of `len` big-endian bytes of `n` (modulo `256 ^ len`). -/
def natToBE : Nat → Nat → List Nat
  | 0, _ => []
  | len + 1, n => natToBE len (n / 256) ++ [n % 256]

/-! ## incrementCounter (eventhub.go / encrypt aes.go)

Go source:

  func incrementCounter(counter []byte, blocks int64) {
    for i := 15; i >= 0 && blocks > 0; i-- {
      sum := uint64(counter[i]) + uint64(blocks&0xff)
      counter[i] = byte(sum & 0xff)
      blocks = blocks >> 8
      if sum > 0xff {
        carry := sum >> 8
        for j := i - 1; j >= 0 && carry > 0; j-- {
          sum = uint64(counter[j]) + carry
          counter[j] = byte(sum & 0xff)
          carry = sum >> 8
        }
      }
    }
  }

The argument blocks is always non-negative at the call sites (the Go loop is a
no-op for negative blocks), so it is embedded as a natural number.  The inner
carry loop is carryLoop (first argument list, then the starting index j, then
the carry); the outer loop is incLoop (index i counts down from 15). -/

/-- Inner carry-propagation loop: runs while the index is in range and the
carry is positive, writing the low byte of each partial sum and moving the
carry one byte toward index 0.  A carry out of index 0 is dropped. -/
def carryLoop : List Nat → Nat → Nat → List Nat
  | c, _, 0 => c
  | c, 0, carry + 1 => c.set 0 ((c.getD 0 0 + (carry + 1)) % 256)
  | c, j + 1, carry + 1 =>
      carryLoop (c.set (j + 1) ((c.getD (j + 1) 0 + (carry + 1)) % 256)) j
        ((c.getD (j + 1) 0 + (carry + 1)) / 256)

/-- Outer loop of incrementCounter: add the low byte of blocks at index i,
propagate any carry toward index 0, then shift blocks right by 8 bits and move
to index i - 1.  Stops when blocks is zero or index 0 has been processed. -/
def incLoop : Nat → List Nat → Nat → List Nat
  | _, c, 0 => c
  | 0, c, b + 1 => c.set 0 ((c.getD 0 0 + (b + 1) % 256) % 256)
  | i + 1, c, b + 1 =>
      let sum := c.getD (i + 1) 0 + (b + 1) % 256
      let c2 := c.set (i + 1) (sum % 256)
      let c3 := if 255 < sum then carryLoop c2 i (sum / 256) else c2
      incLoop i c3 ((b + 1) / 256)

/-- incrementCounter increments a 16-byte counter, treated as a big-endian
128-bit integer, by the given number of blocks. -/
def incrementCounter (counter : List Nat) (blocks : Nat) : List Nat :=
  incLoop 15 counter blocks

/-! ## Event model (event.go)

Go EventType is a string type with four constants; arbitrary strings are
representable, so the type field is embedded as String.  The Go field names
Type and From collide with Lean keywords and are renamed typ and From
(capitalised) respectively. -/

def EventTypeCreate : String := "create"

def EventTypeModify : String := "modify"

def EventTypeRename : String := "rename"

def EventTypeDelete : String := "delete"

structure Event where
  typ : String
  FileID : String
  From : String
  To : String
deriving DecidableEq, Repr

/-- eventState tracks the accumulated state for each file (event.go). -/
structure eventState where
  baseType : String
  originalSrc : String
  currentDst : String
deriving DecidableEq, Repr

/-- The per-file accumulator map of DebounceEvents.  The Go map keyed by
FileID is embedded as a function to Option. -/
abbrev StMap : Type := String → Option eventState

/-- One iteration of the main loop of DebounceEvents: the accumulator holds
the states map and the first-appearance order list.  Faithful transcription
of the switch on the incoming event type and the accumulated base type;
removal from order erases the first occurrence, as the Go index loop with
break does. -/
def debounceStep (acc : StMap × List String) (e : Event) : StMap × List String :=
  let states := acc.1
  let order := acc.2
  match states e.FileID with
  | none =>
      (fun fid => if fid = e.FileID then some ⟨e.typ, e.From, e.To⟩ else states fid,
       order ++ [e.FileID])
  | some st =>
      if e.typ = EventTypeCreate then
        -- Delete + Create → keep as Create (restore from trash)
        if st.baseType = EventTypeDelete then
          (fun fid => if fid = e.FileID then some ⟨EventTypeCreate, e.From, ""⟩ else states fid,
           order)
        else (states, order)
      else if e.typ = EventTypeModify then
        -- every base type leaves the state unchanged
        (states, order)
      else if e.typ = EventTypeRename then
        if st.baseType = EventTypeCreate then
          (fun fid => if fid = e.FileID then some ⟨st.baseType, e.To, ""⟩ else states fid, order)
        else if st.baseType = EventTypeModify then
          (fun fid => if fid = e.FileID then some ⟨EventTypeRename, e.From, e.To⟩ else states fid,
           order)
        else if st.baseType = EventTypeRename then
          if st.originalSrc = e.To then
            -- rename there-and-back: drop the entry entirely
            (fun fid => if fid = e.FileID then none else states fid, order.erase e.FileID)
          else
            (fun fid => if fid = e.FileID then some ⟨st.baseType, st.originalSrc, e.To⟩
             else states fid, order)
        else (states, order)
      else if e.typ = EventTypeDelete then
        if st.baseType = EventTypeCreate then
          -- Create + Delete: ephemeral object, drop the entry
          (fun fid => if fid = e.FileID then none else states fid, order.erase e.FileID)
        else if st.baseType = EventTypeModify then
          (fun fid => if fid = e.FileID then some ⟨EventTypeDelete, e.From, ""⟩ else states fid,
           order)
        else if st.baseType = EventTypeRename then
          (fun fid => if fid = e.FileID then some ⟨EventTypeDelete, e.From, ""⟩ else states fid,
           order)
        else (states, order)
      else (states, order)

/-- Output construction of DebounceEvents: the switch on the accumulated base
type.  The Go struct literals omit To, so it is the empty string except for
Rename; a base type outside the four constants appends nothing. -/
def mkOut (fid : String) (st : eventState) : Option Event :=
  if st.baseType = EventTypeCreate then some ⟨EventTypeCreate, fid, st.originalSrc, ""⟩
  else if st.baseType = EventTypeModify then some ⟨EventTypeModify, fid, st.originalSrc, ""⟩
  else if st.baseType = EventTypeRename then
    some ⟨EventTypeRename, fid, st.originalSrc, st.currentDst⟩
  else if st.baseType = EventTypeDelete then some ⟨EventTypeDelete, fid, st.originalSrc, ""⟩
  else none

/-- DebounceEvents takes time-ordered events and returns debounced/merged
events (event.go). -/
def DebounceEvents (input : List Event) : List Event :=
  if input.isEmpty then []
  else
    let acc := input.foldl debounceStep (fun _ => none, [])
    acc.2.filterMap (fun fid => (acc.1 fid).bind (mkOut fid))

/-- Order of first appearance of each element of a list (specification-side
helper used to state the output-ordering claim). -/
def firstAppearances (l : List String) : List String :=
  l.foldl (fun acc fid => if fid ∈ acc then acc else acc ++ [fid]) []

/-- Whether processing event e in the given accumulated states drops the
entry of its file id (the rename round-trip rule or the ephemeral
Create + Delete rule). -/
def dropsEntry (states : StMap) (e : Event) : Bool :=
  match states e.FileID with
  | none => false
  | some st =>
      (e.typ == EventTypeRename && st.baseType == EventTypeRename && st.originalSrc == e.To) ||
      (e.typ == EventTypeDelete && st.baseType == EventTypeCreate)

/-- Runs the DebounceEvents loop while tracking the set of file ids whose
entry has been dropped; true when no event arrives for a file id whose entry
was previously dropped. -/
def reintroAux : List Event → StMap × List String → List String → Bool
  | [], _, _ => true
  | e :: rest, acc, dropped =>
      (if (acc.1 e.FileID).isNone then !(dropped.contains e.FileID) else true) &&
      reintroAux rest (debounceStep acc e)
        (if dropsEntry acc.1 e then e.FileID :: dropped else dropped)

/-- No event of the input re-introduces a file id whose accumulator entry was
dropped earlier by the round-trip or ephemeral rules. -/
def noReintroB (xs : List Event) : Bool :=
  reintroAux xs (fun _ => none, []) []

/-! ## AES-256-CTR cryptor (encrypt package)

The AES-256 block cipher itself is Go library code (crypto/aes), not part of
this repository; it enters only through the keystream.  It is abstracted as a
function F from the big-endian numeric value of the 16-byte counter and the
byte index within the block to the keystream byte at that position.  Go
cipher.NewCTR produces, from an initial counter c0, the keystream whose byte
at stream offset j is the byte (j mod 16) of the encrypted counter
(c0 + j / 16) mod 2 ^ 128; a stream value is the initial counter plus the
number of keystream bytes already consumed. -/

/-- Constant types.CipherAES256CTR (inventory/types, not under src; the exact
string value is irrelevant to every claim, only its self-equality is used). -/
def CipherAES256CTR : String := "aes_256_ctr"

structure EncryptMetadata where
  Algorithm : String
  Key : List Nat
  KeyPlainText : List Nat
  IV : List Nat
deriving DecidableEq, Repr

/-- State of a Go cipher.Stream produced by cipher.NewCTR: the initial
counter bytes and the number of keystream bytes consumed so far. -/
structure CTRStream where
  counter : List Nat
  used : Nat
deriving DecidableEq, Repr

/-- XORKeyStream of a CTR stream whose initial counter is c0, applied from
stream offset idx: models Go cipher.NewCTR with block function F. -/
def xorKS (F : Nat → Nat → Nat) (c0 : List Nat) : Nat → List Nat → List Nat
  | _, [] => []
  | idx, b :: rest =>
      (b ^^^ F ((beVal c0 + idx / 16) % 2 ^ 128) (idx % 16)) :: xorKS F c0 (idx + 1) rest

/-- stream.XORKeyStream(dst, src): returns the transformed bytes and the
advanced stream. -/
def xorKeyStream (F : Nat → Nat → Nat) (s : CTRStream) (data : List Nat) :
    List Nat × CTRStream :=
  (xorKS F s.counter s.used data, { s with used := s.used + data.length })

/-- Errors surfaced by an io.Reader: io.EOF or any other error. -/
inductive RErr where
  | eof
  | other (msg : String)
deriving DecidableEq, Repr

/-- External source operations (io.Reader / io.Seeker pair over source state
σ): read takes the buffer length and returns the bytes placed in the buffer
together with the error, plus the advanced source; seek moves the source to
an absolute position. -/
structure SrcOps (σ : Type) where
  read : σ → Nat → (List Nat × Option RErr) × σ
  seek : σ → Int → Except String σ

/-- The AES256CTR cryptor state (decryption fields).  src carries the state
of the bound source; hasSeeker models whether the seeker argument of
SetSource was non-nil. -/
structure AES256CTR (σ : Type) where
  metadata : Option EncryptMetadata
  src : Option σ
  hasSeeker : Bool
  stream : Option CTRStream
  counterOffset : Int
  pos : Int
  size : Int
  eof : Bool

def NewAES256CTR (σ : Type) : AES256CTR σ :=
  { metadata := none, src := none, hasSeeker := false, stream := none,
    counterOffset := 0, pos := 0, size := -1, eof := false }

/-- LoadMetadata: verify the algorithm, adopt a plaintext key verbatim, or
fall back to unwrapping the key under the master key.  The unwrap result
(DecriptKey, which consults the master-key vault) is passed in as
unwrappedKey since the vault is external to the cryptor. -/
def LoadMetadata (e : AES256CTR σ) (encryptedMetadata : Option EncryptMetadata)
    (unwrappedKey : Except String (List Nat)) : Except String (AES256CTR σ) :=
  match encryptedMetadata with
  | none => .error "encryption metadata is nil"
  | some m =>
      if m.Algorithm ≠ CipherAES256CTR then .error "unsupported algorithm"
      else if 0 < m.KeyPlainText.length then .ok { e with metadata := some m }
      else
        match unwrappedKey with
        | .error msg => .error msg
        | .ok k =>
            let md : EncryptMetadata :=
              { Algorithm := m.Algorithm, Key := [], KeyPlainText := k, IV := m.IV }
            .ok { e with metadata := some md }

/-- initCipherStream initializes the cipher stream with proper counter
alignment for the given absolute byte position.  aes.NewCipher rejects keys
whose length is not 16, 24 or 32; Go copy pads a short IV with zero bytes and
truncates a long one to 16.  The trailing dummy XOR that advances the stream
within the block is reflected in the used field. -/
def initCipherStream (md : EncryptMetadata) (absolutePosition : Int) : Except String CTRStream :=
  if md.KeyPlainText.length = 16 ∨ md.KeyPlainText.length = 24 ∨ md.KeyPlainText.length = 32 then
    let counter0 := md.IV.take 16 ++ List.replicate (16 - md.IV.length) 0
    let counter :=
      if 0 < absolutePosition then incrementCounter counter0 ((absolutePosition / 16).toNat)
      else counter0
    let offsetInBlock := absolutePosition % 16
    .ok { counter := counter, used := if 0 < offsetInBlock then offsetInBlock.toNat else 0 }
  else .error "failed to create AES cipher"

/-- SetSource binds the encrypted source, resets the cursor and initializes
the cipher stream at counterOffset.  The Go method mutates the receiver
before calling initCipherStream, so on error the updated fields are kept
while the old stream remains. -/
def SetSource (e : AES256CTR σ) (src : Option σ) (hasSeeker : Bool)
    (size counterOffset : Int) : Except String Unit × AES256CTR σ :=
  match e.metadata with
  | none => (.error "metadata not loaded, call LoadMetadata first", e)
  | some md =>
      let e1 := { e with
        src := src, hasSeeker := hasSeeker, counterOffset := counterOffset,
        pos := 0, eof := false, size := size }
      match initCipherStream md counterOffset with
      | .error m => (.error m, e1)
      | .ok st => (.ok (), { e1 with stream := some st })

/-- Read: pull encrypted bytes from the source and decrypt in place.  Exact
transcription of the Go error handling: a non-EOF error returns the raw
bytes immediately; io.EOF sets the eof flag, and any bytes read are
decrypted before returning.  The source state advances in every case because
the underlying Read already happened. -/
def AES256CTR.Read (F : Nat → Nat → Nat) (ops : SrcOps σ) (e : AES256CTR σ) (bufLen : Nat) :
    (List Nat × Option RErr) × AES256CTR σ :=
  match e.src with
  | none => (([], some (RErr.other "source not set, call SetSource first")), e)
  | some s =>
      if e.eof then (([], some RErr.eof), e)
      else
        let r := ops.read s bufLen
        let e1 := { e with src := some r.2 }
        let data := r.1.1
        match r.1.2 with
        | some (RErr.other m) => ((data, some (RErr.other m)), e1)
        | err =>
            let e2 := if err = some RErr.eof then { e1 with eof := true } else e1
            if err = some RErr.eof ∧ data.length = 0 then ((data, some RErr.eof), e2)
            else if 0 < data.length then
              match e2.stream with
              | none => ((data, some (RErr.other "cipher stream not set")), e2)
              | some st =>
                  let dec := xorKeyStream F st data
                  ((dec.1, err), { e2 with stream := some dec.2, pos := e2.pos + data.length })
            else ((data, err), e2)

/-- The new absolute position a Seek call computes for the given whence
(0 SeekStart, 1 SeekCurrent, 2 SeekEnd); helper for stating the structural
error conditions. -/
def seekNewPos (e : AES256CTR σ) (offset : Int) (whence : Nat) : Int :=
  if whence = 0 then offset else if whence = 1 then e.pos + offset else e.size + offset

/-- Seek: compute the new absolute position, reseek the source at
counterOffset + newPos, reinitialize the cipher stream there, then update
pos and clear eof.  All structural checks happen before any mutation. -/
def AES256CTR.Seek (ops : SrcOps σ) (e : AES256CTR σ) (offset : Int) (whence : Nat) :
    Except String Int × AES256CTR σ :=
  match e.metadata with
  | none => (.error "metadata not loaded, call LoadMetadata first", e)
  | some md =>
      match e.src with
      | none => (.error "source not set, call SetSource first", e)
      | some s =>
          if e.hasSeeker = false then (.error "source does not support seeking", e)
          else
            let npE : Except String Int :=
              if whence = 0 then .ok offset
              else if whence = 1 then .ok (e.pos + offset)
              else if whence = 2 then
                if e.size < 0 then .error "size unknown, call SetSize before using SeekEnd"
                else .ok (e.size + offset)
              else .error "invalid whence"
            match npE with
            | .error m => (.error m, e)
            | .ok newPos =>
                if newPos < 0 then (.error "negative position", e)
                else
                  let absPos := e.counterOffset + newPos
                  match ops.seek s absPos with
                  | .error m => (.error ("failed to seek source: " ++ m), e)
                  | .ok s2 =>
                      match initCipherStream md absPos with
                      | .error m =>
                          (.error ("failed to reinitialize cipher stream: " ++ m),
                           { e with src := some s2 })
                      | .ok st =>
                          (.ok newPos,
                           { e with
                             src := some s2, stream := some st, pos := newPos,
                             eof := false })

/-- A bytes.Reader over a fixed byte list, as SrcOps over the reader
position: Read returns min(bufLen, remaining) bytes, or (0, io.EOF) when no
bytes remain; Seek rejects negative targets. -/
def bytesSrcOps (data : List Nat) : SrcOps Nat :=
  { read := fun pos bufLen =>
      if data.length ≤ pos then (([], some RErr.eof), pos)
      else
        let chunk := (data.drop pos).take bufLen
        ((chunk, none), pos + chunk.length),
    seek := fun _ target =>
      if target < 0 then .error "negative position" else .ok target.toNat }

/-- Modelled from the spec: encryption of the object body under AES-256-CTR
with file key K and IV I (performed by the JavaScript EncryptedBlob client,
outside this repository).  The ciphertext byte at position p is the
plaintext byte XORed with keystream byte p of the CTR stream started at the
IV, which the source file documents as the compatible scheme. -/
def encryptCTR (F : Nat → Nat → Nat) (iv P : List Nat) : List Nat :=
  xorKS F iv 0 P

/-- End-to-end decryption scenario: load plaintext metadata (K, IV), bind a
bytes.Reader over the ciphertext with counter offset 0, Seek to absolute
position s (whence SeekStart = 0), then Read with a buffer of n bytes. -/
def decryptSeekRead (F : Nat → Nat → Nat) (K iv C : List Nat) (s n : Nat) :
    Except String (List Nat) :=
  let e0 := NewAES256CTR Nat
  match LoadMetadata e0
      (some { Algorithm := CipherAES256CTR, Key := [], KeyPlainText := K, IV := iv })
      (.error "unused") with
  | .error m => .error m
  | .ok e1 =>
      let ops := bytesSrcOps C
      match SetSource e1 (some 0) true (C.length : Int) 0 with
      | (.error m, _) => .error m
      | (.ok _, e2) =>
          match AES256CTR.Seek ops e2 (s : Int) 0 with
          | (.error m, _) => .error m
          | (.ok _, e3) =>
              match AES256CTR.Read F ops e3 n with
              | ((_, some (RErr.other m)), _) => .error m
              | ((bytes, _), _) => .ok bytes

/-! ## Subscriber (eventhub subscriber.go part)

Time is modelled as a natural-number count of nanoseconds; the Go zero
time.Time is the value 0 of offlineSince.  The durable FsEvent store is a
list of batches (subscriber id, user id, events): Create appends one batch,
TakeBySubscriber removes and concatenates the matching batches in insertion
order (the JSON round-trip of each event is the identity), and
DeleteBySubscriber removes every batch of the subscriber id.  The debounce
timer handle is modelled by whether a timer is armed; channel delivery is a
list of undelivered events bounded by the channel capacity. -/

def bufSize : Nat := 16

/-- userCacheTTL = 1 hour in nanoseconds. -/
def userCacheTTL : Nat := 3600000000000

/-- offlineMaxAge = 14 * 24 hours in nanoseconds. -/
def offlineMaxAge : Nat := 1209600000000000

/-- Modelled from the spec: the authenticated user carried by the request
context (inventory.UserFromContext / inventory.IsAnonymousUser are not under
src); a context carries either no user or a user record with an
anonymous-group flag. -/
structure MUser where
  ID : Nat
  anonymous : Bool
deriving DecidableEq, Repr

structure Sub where
  id : String
  uid : Nat
  chBuf : List Event
  chClosed : Bool
  online : Bool
  offlineSince : Nat
  buffer : List Event
  timerArmed : Bool
  ownerCached : Option MUser
  cachedAt : Nat
  closed : Bool
deriving DecidableEq, Repr

abbrev Store : Type := List (String × Nat × List Event)

/-- Non-blocking send on the bounded subscriber channel: the select with a
default branch drops the event when the channel is full. -/
def nonBlockingSend (ch : List Event) (evt : Event) : List Event :=
  if ch.length < bufSize then ch ++ [evt] else ch

/-- flushLocked: if offline, persist the raw buffer as one batch keyed by
the cached owner — the Go code reads s.ownerCached.ID without a nil check,
so a nil cache is a nil-pointer dereference, modelled as none; if online,
run the buffer through DebounceEvents and send each result non-blocking.
Either way clear the buffer and the timer handle. -/
def flushLocked (s : Sub) (store : Store) : Option (Sub × Store) :=
  if s.buffer.isEmpty || s.closed then some (s, store)
  else if s.online = false then
    match s.ownerCached with
    | none => none
    | some owner =>
        some ({ s with buffer := [], timerArmed := false },
          store ++ [(s.id, owner.ID, s.buffer)])
  else
    let debounced := DebounceEvents s.buffer
    let ch := debounced.foldl nonBlockingSend s.chBuf
    some ({ s with chBuf := ch, buffer := [], timerArmed := false }, store)

/-- Stop cancels any pending debounce timer and flushes remaining events. -/
def subStop (s : Sub) (store : Store) : Option (Sub × Store) :=
  flushLocked { s with timerArmed := false } store

/-- setOffline stamps offlineSince, stops the timer, then flushes (which
will persist when the buffer is non-empty, since online is now false). -/
def setOffline (now : Nat) (s : Sub) (store : Store) : Option (Sub × Store) :=
  if s.closed then some (s, store)
  else flushLocked { s with online := false, offlineSince := now, timerArmed := false } store

/-- TakeBySubscriber of the FsEvent client: read-and-delete all stored
events of (subscriber id, user id), preserving stored order. -/
def takeBySubscriber (id : String) (uid : Nat) (store : Store) : List Event × Store :=
  ((store.filter (fun b => b.1 == id && b.2.1 == uid)).foldl (fun acc b => acc ++ b.2.2) [],
   store.filter (fun b => !(b.1 == id && b.2.1 == uid)))

/-- setOnline marks the subscriber online, drops the owner cache, loads the
persisted events into the buffer and rearms the debounce timer when the
buffer is non-empty.  (A TakeBySubscriber error would leave the buffer
untouched; the store model never fails.) -/
def setOnline (s : Sub) (store : Store) : Sub × Store :=
  if s.closed then (s, store)
  else
    let s1 := { s with online := true, ownerCached := none, offlineSince := 0 }
    let taken := takeBySubscriber s1.id s1.uid store
    let s2 := { s1 with buffer := s1.buffer ++ taken.1 }
    if s2.buffer.isEmpty then (s2, taken.2) else ({ s2 with timerArmed := true }, taken.2)

/-- Publish appends to the buffer and (re)arms the debounce timer; no-op
when closed. -/
def publishOp (evt : Event) (s : Sub) : Sub :=
  if s.closed then s
  else { s with buffer := s.buffer ++ [evt], timerArmed := true }

/-- Field effect of subscriber close: terminal flag, timer stopped, channel
closed, buffer released. -/
def closeFields (s : Sub) : Sub :=
  { s with closed := true, timerArmed := false, chClosed := true, buffer := [] }

/-- close permanently closes the subscriber and deletes its durable
records. -/
def subClose (s : Sub) (store : Store) : Sub × Store :=
  if s.closed then (s, store)
  else (closeFields s, store.filter (fun b => !(b.1 == s.id)))

/-- shouldExpire: offline, with a non-zero offline stamp, for strictly more
than offlineMaxAge.  Nat subtraction truncates at 0, matching the Go
comparison that is false for a non-positive duration. -/
def shouldExpire (now : Nat) (s : Sub) : Bool :=
  !s.online && !(s.offlineSince == 0) && decide (offlineMaxAge < now - s.offlineSince)

/-- Owner: reload the cached owner when the cache is stale or missing;
fetched is the user-repository result (none = error, cache kept). -/
def ownerOp (now : Nat) (fetched : Option MUser) (s : Sub) : Sub :=
  if userCacheTTL < now - s.cachedAt ∨ s.ownerCached = none then
    match fetched with
    | none => s
    | some u => { s with ownerCached := some u, cachedAt := now }
  else s

/-- newSubscriber: requires an authenticated, non-anonymous user from the
context; the new subscriber is online with the owner cached. -/
def newSubscriber (ctxUser : Option MUser) (id : String) (now : Nat) : Except String Sub :=
  match ctxUser with
  | none => .error "user not found"
  | some user =>
      if user.anonymous then .error "user not found"
      else .ok { id := id, uid := user.ID, chBuf := [], chClosed := false, online := true,
                 offlineSince := 0, buffer := [], timerArmed := false,
                 ownerCached := some user, cachedAt := now, closed := false }

/-! ## EventHub (eventhub.go)

The topic registry map topic → (map id → subscriber) is embedded as nested
association lists with the Go map operations (unique keys; iteration order
immaterial to every claim). -/

/-- Go map assignment m[k] = v on an association list: replace in place, or
append when absent. -/
def alSet {α β : Type} [BEq α] (l : List (α × β)) (k : α) (v : β) : List (α × β) :=
  if l.any (fun p => p.1 == k) then l.map (fun p => if p.1 == k then (k, v) else p)
  else l ++ [(k, v)]

/-- Go map deletion delete(m, k). -/
def alErase {α β : Type} [BEq α] (l : List (α × β)) (k : α) : List (α × β) :=
  l.filter (fun p => !(p.1 == k))

structure HubWorld where
  topics : List (Nat × List (String × Sub))
  hclosed : Bool
  store : Store
deriving DecidableEq, Repr

def lookupSub (w : HubWorld) (topic : Nat) (id : String) : Option Sub :=
  match w.topics.lookup topic with
  | none => none
  | some subs => subs.lookup id

/-- Subscribe (eventhub.go): fail when the hub is closed; materialize the
topic map; reactivate an existing non-closed subscriber via setOnline and
return resumed = true without consulting the context user; evict an
existing closed subscriber; otherwise create a new subscriber from the
context user.  The boolean result is the resumed flag. -/
def hubSubscribe (now : Nat) (ctxUser : Option MUser) (w : HubWorld) (topic : Nat)
    (id : String) : Except String Bool × HubWorld :=
  if w.hclosed then (.error "event hub is closed", w)
  else
    let subs := (w.topics.lookup topic).getD []
    match subs.lookup id with
    | some s =>
        if s.closed then
          let subs1 := alErase subs id
          match newSubscriber ctxUser id now with
          | .error m => (.error m, { w with topics := alSet w.topics topic subs1 })
          | .ok sub =>
              (.ok false, { w with topics := alSet w.topics topic (alSet subs1 id sub) })
        else
          let r := setOnline s w.store
          (.ok true, { w with
            topics := alSet w.topics topic (alSet subs id r.1), store := r.2 })
    | none =>
        match newSubscriber ctxUser id now with
        | .error m => (.error m, { w with topics := alSet w.topics topic subs })
        | .ok sub =>
            (.ok false, { w with topics := alSet w.topics topic (alSet subs id sub) })

/-- Unsubscribe (eventhub.go): look the subscriber up and run Stop followed
by setOffline; the registry keeps the subscriber.  none propagates the
modelled nil-pointer panic of flushLocked. -/
def hubUnsubscribe (now : Nat) (w : HubWorld) (topic : Nat) (id : String) : Option HubWorld :=
  if w.hclosed then some w
  else
    match w.topics.lookup topic with
    | none => some w
    | some subs =>
        match subs.lookup id with
        | none => some w
        | some s =>
            match subStop s w.store with
            | none => none
            | some r1 =>
                match setOffline now r1.1 r1.2 with
                | none => none
                | some r2 =>
                    some { w with
                      topics := alSet w.topics topic (alSet subs id r2.1), store := r2.2 }

/-- cleanupExpiredSubscribers (eventhub.go): on a non-closed hub, close and
remove every subscriber that shouldExpire, then remove emptied topics.  The
Go loop closes each expired subscriber in place before deleting it from the
map; the composition of those per-subscriber steps is the filters below.
The closed expired subscribers are returned alongside for observation. -/
def cleanupExpiredSubscribers (now : Nat) (w : HubWorld) : HubWorld × List Sub :=
  if w.hclosed then (w, [])
  else
    let expiredIds := w.topics.foldl
      (fun acc p => acc ++ (p.2.filter (fun q => shouldExpire now q.2)).map (fun q => q.1)) []
    let closedSubs := w.topics.foldl
      (fun acc p => acc ++ (p.2.filter (fun q => shouldExpire now q.2)).map
        (fun q => closeFields q.2)) []
    let topics1 := (w.topics.map
      (fun p => (p.1, p.2.filter (fun q => !shouldExpire now q.2)))).filter
      (fun p => !p.2.isEmpty)
    ({ w with
      topics := topics1,
      store := w.store.filter (fun b => !(expiredIds.contains b.1)) }, closedSubs)

/-! ## Subscriber operation sequences (for the owner-cache safety claim) -/

inductive SubOp where
  | publishE (e : Event)
  | timerFlush
  | goOnline
  | goOffline (now : Nat)
  | stopOp
  | ownerQ (now : Nat) (fetched : Option MUser)

/-- One subscriber operation over the subscriber and the durable store;
none models a nil-pointer panic inside flushLocked. -/
def runOp : SubOp → Sub × Store → Option (Sub × Store)
  | .publishE e, (s, st) => some (publishOp e s, st)
  | .timerFlush, (s, st) => flushLocked s st
  | .goOnline, (s, st) => some (setOnline s st)
  | .goOffline now, (s, st) => setOffline now s st
  | .stopOp, (s, st) => subStop s st
  | .ownerQ now fetched, (s, st) => some (ownerOp now fetched s, st)

def runOps : List SubOp → Sub × Store → Option (Sub × Store)
  | [], w => some w
  | op :: rest, w => (runOp op w).bind (runOps rest)

/-! # Theorems -/

/-! ## Big-endian byte-string arithmetic -/

theorem beVal_concat (l : List Nat) (b : Nat) : beVal (l ++ [b]) = beVal l * 256 + b := by
  induction l with
  | nil => simp [beVal]
  | cons a l ih =>
      show a * 256 ^ (l ++ [b]).length + beVal (l ++ [b]) =
        (a * 256 ^ l.length + beVal l) * 256 + b
      rw [ih, List.length_append]
      simp only [List.length_cons, List.length_nil, pow_succ, pow_zero]
      ring

theorem natToBE_length (len n : Nat) : (natToBE len n).length = len := by
  induction len generalizing n with
  | zero => rfl
  | succ len ih => simp [natToBE, ih]

theorem natToBE_mem_lt (len n : Nat) : ∀ b ∈ natToBE len n, b < 256 := by
  induction len generalizing n with
  | zero => intro b hb; simp [natToBE] at hb
  | succ len ih =>
      intro b hb
      simp only [natToBE, List.mem_append, List.mem_singleton] at hb
      rcases hb with hb | hb
      · exact ih _ b hb
      · subst hb; exact Nat.mod_lt _ (by norm_num)

theorem beVal_natToBE (len n : Nat) : beVal (natToBE len n) = n % 256 ^ len := by
  induction len generalizing n with
  | zero => simp [natToBE, beVal, Nat.mod_one]
  | succ len ih =>
      rw [natToBE, beVal_concat, ih, pow_succ, mul_comm ((256:Nat) ^ len) 256, Nat.mod_mul]
      ring

theorem natToBE_mod (len n : Nat) : natToBE len (n % 256 ^ len) = natToBE len n := by
  induction len generalizing n with
  | zero => rfl
  | succ len ih =>
      have hdvd : (256 : Nat) ∣ 256 ^ (len + 1) := dvd_pow_self 256 (Nat.succ_ne_zero len)
      have h1 : n % 256 ^ (len + 1) % 256 = n % 256 := Nat.mod_mod_of_dvd n hdvd
      have h2 : n % 256 ^ (len + 1) / 256 = n / 256 % 256 ^ len := by
        rw [pow_succ, mul_comm ((256:Nat) ^ len) 256, Nat.mod_mul,
          Nat.add_mul_div_left _ _ (by norm_num : (0:Nat) < 256),
          Nat.div_eq_of_lt (Nat.mod_lt _ (by norm_num)), Nat.zero_add]
      rw [natToBE, natToBE, h1, h2, ih]

theorem natToBE_beVal (l : List Nat) (hb : ∀ b ∈ l, b < 256) :
    natToBE l.length (beVal l) = l := by
  induction l using List.reverseRecOn with
  | nil => rfl
  | append_singleton l b ih =>
      have hblt : b < 256 := hb b (by simp)
      have hl : ∀ x ∈ l, x < 256 := fun x hx => hb x (by simp [hx])
      rw [beVal_concat, List.length_append, List.length_cons, List.length_nil]
      show natToBE (l.length + 1) (beVal l * 256 + b) = l ++ [b]
      rw [natToBE]
      have h1 : (beVal l * 256 + b) / 256 = beVal l := by
        rw [add_comm, mul_comm, Nat.add_mul_div_left _ _ (by norm_num : (0:Nat) < 256),
          Nat.div_eq_of_lt hblt, Nat.zero_add]
      have h2 : (beVal l * 256 + b) % 256 = b := by
        rw [add_comm, mul_comm, Nat.add_mul_mod_self_left, Nat.mod_eq_of_lt hblt]
      rw [h1, h2, ih hl]

theorem take_set_of_le {α : Type} (v : α) :
    ∀ (cs : List α) (m k : Nat), k ≤ m → (cs.set m v).take k = cs.take k := by
  intro cs
  induction cs with
  | nil => intro m k _; simp
  | cons a t ih =>
      intro m k hk
      match m, k with
      | m, 0 => simp
      | 0, k + 1 => omega
      | m + 1, k + 1 =>
          simp only [List.set_cons_succ, List.take_succ_cons]
          rw [ih m k (by omega)]

theorem drop_set_same {α : Type} (cs : List α) (m : Nat) (v : α) (h : m < cs.length) :
    (cs.set m v).drop m = v :: cs.drop (m + 1) := by
  rw [List.drop_set, if_neg (lt_irrefl m), Nat.sub_self, List.drop_eq_getElem_cons h,
    List.set_cons_zero]

theorem take_succ_concat {α : Type} (cs : List α) (m : Nat) (h : m < cs.length) :
    cs.take (m + 1) = cs.take m ++ [cs[m]] := by
  rw [List.take_succ, List.getElem?_eq_getElem h]
  rfl

theorem beVal_lt (l : List Nat) (hb : ∀ b ∈ l, b < 256) : beVal l < 256 ^ l.length := by
  induction l with
  | nil => simp [beVal]
  | cons a l ih =>
      have ha : a ≤ 255 := by have := hb a (by simp); omega
      have hl : beVal l < 256 ^ l.length := ih (fun x hx => hb x (by simp [hx]))
      show a * 256 ^ l.length + beVal l < 256 ^ (l.length + 1)
      calc a * 256 ^ l.length + beVal l < a * 256 ^ l.length + 256 ^ l.length := by omega
        _ = (a + 1) * 256 ^ l.length := by ring
        _ ≤ 256 * 256 ^ l.length := Nat.mul_le_mul_right _ (by omega)
        _ = 256 ^ (l.length + 1) := by rw [pow_succ]; ring

theorem roundtrip_take_drop (cs : List Nat) (j : Nat) (hj : j < cs.length)
    (hb : ∀ b ∈ cs.take (j + 1), b < 256) :
    natToBE (j + 1) (beVal (cs.take (j + 1))) ++ cs.drop (j + 1) = cs := by
  have hlen : (cs.take (j + 1)).length = j + 1 := by rw [List.length_take]; omega
  calc natToBE (j + 1) (beVal (cs.take (j + 1))) ++ cs.drop (j + 1)
      = natToBE (cs.take (j + 1)).length (beVal (cs.take (j + 1))) ++ cs.drop (j + 1) := by
        rw [hlen]
    _ = cs.take (j + 1) ++ cs.drop (j + 1) := by rw [natToBE_beVal _ hb]
    _ = cs := List.take_append_drop _ _

theorem carryLoop_spec : ∀ (j : Nat) (cs : List Nat) (carry : Nat), j < cs.length →
    (∀ b ∈ cs.take (j + 1), b < 256) →
    carryLoop cs j carry =
      natToBE (j + 1) (beVal (cs.take (j + 1)) + carry) ++ cs.drop (j + 1) := by
  intro j
  induction j with
  | zero =>
      intro cs carry hj hb
      match carry with
      | 0 =>
          rw [Nat.add_zero]
          exact (roundtrip_take_drop cs 0 hj hb).symm
      | k + 1 =>
          obtain ⟨a, t, rfl⟩ : ∃ a t, cs = a :: t := by
            cases cs with
            | nil => simp at hj
            | cons a t => exact ⟨a, t, rfl⟩
          show (a :: t).set 0 ((List.getD (a :: t) 0 0 + (k + 1)) % 256) = _
          simp [natToBE, beVal]
  | succ j ih =>
      intro cs carry hj hb
      match carry with
      | 0 =>
          rw [Nat.add_zero]
          exact (roundtrip_take_drop cs (j + 1) hj hb).symm
      | k + 1 =>
          have hj1 : j + 1 < cs.length := hj
          have hgd : List.getD cs (j + 1) 0 = cs[j + 1] := List.getD_eq_getElem cs 0 hj1
          show carryLoop (cs.set (j + 1) ((List.getD cs (j + 1) 0 + (k + 1)) % 256)) j
              ((List.getD cs (j + 1) 0 + (k + 1)) / 256) = _
          rw [hgd]
          have h2 : j < (cs.set (j + 1) ((cs[j + 1] + (k + 1)) % 256)).length := by
            rw [List.length_set]; omega
          have htake2 : (cs.set (j + 1) ((cs[j + 1] + (k + 1)) % 256)).take (j + 1) =
              cs.take (j + 1) := take_set_of_le _ cs (j + 1) (j + 1) (le_refl _)
          have hsub : ∀ b ∈ cs.take (j + 1), b < 256 := by
            intro b hbm
            apply hb
            have heq : cs.take (j + 1) = (cs.take (j + 1 + 1)).take (j + 1) := by
              rw [List.take_take]
              congr 1
              omega
            rw [heq] at hbm
            exact List.take_subset _ _ hbm
          have hb2 : ∀ b ∈ (cs.set (j + 1) ((cs[j + 1] + (k + 1)) % 256)).take (j + 1),
              b < 256 := by
            rw [htake2]; exact hsub
          rw [ih _ _ h2 hb2, htake2, drop_set_same cs (j + 1) _ hj1]
          have htk : cs.take (j + 1 + 1) = cs.take (j + 1) ++ [cs[j + 1]] :=
            take_succ_concat cs (j + 1) hj1
          have hbv : beVal (cs.take (j + 1 + 1)) =
              beVal (cs.take (j + 1)) * 256 + cs[j + 1] := by
            rw [htk, beVal_concat]
          have harg : beVal (cs.take (j + 1 + 1)) + (k + 1) =
              (cs[j + 1] + (k + 1)) + 256 * beVal (cs.take (j + 1)) := by rw [hbv]; ring
          rw [harg]
          have hre : natToBE (j + 1 + 1) ((cs[j + 1] + (k + 1)) + 256 * beVal (cs.take (j + 1)))
              = natToBE (j + 1) (beVal (cs.take (j + 1)) + (cs[j + 1] + (k + 1)) / 256) ++
                [(cs[j + 1] + (k + 1)) % 256] := by
            rw [natToBE, Nat.add_mul_div_left _ _ (by norm_num : (0:Nat) < 256),
              Nat.add_mul_mod_self_left, Nat.add_comm ((cs[j + 1] + (k + 1)) / 256)]
          rw [hre, List.append_assoc, List.singleton_append]

theorem incLoop_spec : ∀ (i : Nat) (cs : List Nat) (B : Nat), i < cs.length →
    (∀ b ∈ cs.take (i + 1), b < 256) →
    incLoop i cs B =
      natToBE (i + 1) (beVal (cs.take (i + 1)) + B % 256 ^ (i + 1)) ++ cs.drop (i + 1) := by
  intro i
  induction i with
  | zero =>
      intro cs B hi hb
      match B with
      | 0 =>
          rw [Nat.zero_mod, Nat.add_zero]
          exact (roundtrip_take_drop cs 0 hi hb).symm
      | b + 1 =>
          obtain ⟨a, t, rfl⟩ : ∃ a t, cs = a :: t := by
            cases cs with
            | nil => simp at hi
            | cons a t => exact ⟨a, t, rfl⟩
          show (a :: t).set 0 ((List.getD (a :: t) 0 0 + (b + 1) % 256) % 256) = _
          simp [natToBE, beVal, pow_one]
  | succ i ih =>
      intro cs B hi hb
      match B with
      | 0 =>
          rw [Nat.zero_mod, Nat.add_zero]
          exact (roundtrip_take_drop cs (i + 1) hi hb).symm
      | b + 1 =>
          have hi1 : i + 1 < cs.length := hi
          have hgd : List.getD cs (i + 1) 0 = cs[i + 1] := List.getD_eq_getElem cs 0 hi1
          have hstep : incLoop (i + 1) cs (b + 1) =
              incLoop i
                (if 255 < List.getD cs (i + 1) 0 + (b + 1) % 256 then
                  carryLoop (cs.set (i + 1) ((List.getD cs (i + 1) 0 + (b + 1) % 256) % 256)) i
                    ((List.getD cs (i + 1) 0 + (b + 1) % 256) / 256)
                else cs.set (i + 1) ((List.getD cs (i + 1) 0 + (b + 1) % 256) % 256))
                ((b + 1) / 256) := rfl
          rw [hgd] at hstep
          have htk : cs.take (i + 1 + 1) = cs.take (i + 1) ++ [cs[i + 1]] :=
            take_succ_concat cs (i + 1) hi1
          have hbv : beVal (cs.take (i + 1 + 1)) =
              beVal (cs.take (i + 1)) * 256 + cs[i + 1] := by
            rw [htk, beVal_concat]
          have hsub : ∀ b ∈ cs.take (i + 1), b < 256 := by
            intro x hx
            apply hb
            rw [htk]
            exact List.mem_append_left _ hx
          have hlenTake : (cs.take (i + 1)).length = i + 1 := by
            rw [List.length_take]; omega
          have hc3 : (if 255 < cs[i + 1] + (b + 1) % 256 then
                carryLoop (cs.set (i + 1) ((cs[i + 1] + (b + 1) % 256) % 256)) i
                  ((cs[i + 1] + (b + 1) % 256) / 256)
              else cs.set (i + 1) ((cs[i + 1] + (b + 1) % 256) % 256)) =
              natToBE (i + 1 + 1) (beVal (cs.take (i + 1 + 1)) + (b + 1) % 256) ++
                cs.drop (i + 1 + 1) := by
            have harg : beVal (cs.take (i + 1 + 1)) + (b + 1) % 256 =
                (cs[i + 1] + (b + 1) % 256) + 256 * beVal (cs.take (i + 1)) := by
              rw [hbv]; ring
            have hre : natToBE (i + 1 + 1)
                ((cs[i + 1] + (b + 1) % 256) + 256 * beVal (cs.take (i + 1))) =
                natToBE (i + 1)
                  (beVal (cs.take (i + 1)) + (cs[i + 1] + (b + 1) % 256) / 256) ++
                  [(cs[i + 1] + (b + 1) % 256) % 256] := by
              rw [natToBE, Nat.add_mul_div_left _ _ (by norm_num : (0:Nat) < 256),
                Nat.add_mul_mod_self_left, Nat.add_comm ((cs[i + 1] + (b + 1) % 256) / 256)]
            by_cases hcase : 255 < cs[i + 1] + (b + 1) % 256
            · rw [if_pos hcase]
              have h2 : i < (cs.set (i + 1) ((cs[i + 1] + (b + 1) % 256) % 256)).length := by
                rw [List.length_set]; omega
              have htake2 : (cs.set (i + 1) ((cs[i + 1] + (b + 1) % 256) % 256)).take (i + 1) =
                  cs.take (i + 1) := take_set_of_le _ cs (i + 1) (i + 1) (le_refl _)
              have hb2 : ∀ x ∈ (cs.set (i + 1) ((cs[i + 1] + (b + 1) % 256) % 256)).take (i + 1),
                  x < 256 := by
                rw [htake2]; exact hsub
              rw [carryLoop_spec i _ _ h2 hb2, htake2, drop_set_same cs (i + 1) _ hi1,
                harg, hre, List.append_assoc, List.singleton_append]
            · rw [if_neg hcase]
              have hsum256 : cs[i + 1] + (b + 1) % 256 < 256 := by omega
              have hdiv0 : (cs[i + 1] + (b + 1) % 256) / 256 = 0 := Nat.div_eq_of_lt hsum256
              have hset : cs.set (i + 1) ((cs[i + 1] + (b + 1) % 256) % 256) =
                  cs.take (i + 1) ++ (cs[i + 1] + (b + 1) % 256) % 256 :: cs.drop (i + 1 + 1) := by
                rw [List.set_eq_take_append_cons_drop, if_pos hi1]
              rw [hset, harg, hre, hdiv0]
              simp only [Nat.add_zero]
              have hrt : natToBE (i + 1) (beVal (cs.take (i + 1))) = cs.take (i + 1) := by
                have hx := natToBE_beVal (cs.take (i + 1)) hsub
                rw [hlenTake] at hx
                exact hx
              rw [hrt, List.append_assoc, List.singleton_append]
          rw [hstep, hc3]
          have hM : natToBE (i + 1 + 1) (beVal (cs.take (i + 1 + 1)) + (b + 1) % 256) =
              natToBE (i + 1) ((beVal (cs.take (i + 1 + 1)) + (b + 1) % 256) / 256) ++
                [(beVal (cs.take (i + 1 + 1)) + (b + 1) % 256) % 256] := by
            rw [natToBE]
          have hlen3 : (natToBE (i + 1 + 1) (beVal (cs.take (i + 1 + 1)) + (b + 1) % 256) ++
              cs.drop (i + 1 + 1)).length = cs.length := by
            rw [List.length_append, natToBE_length, List.length_drop]; omega
          have hi3 : i < (natToBE (i + 1 + 1) (beVal (cs.take (i + 1 + 1)) + (b + 1) % 256) ++
              cs.drop (i + 1 + 1)).length := by
            rw [hlen3]; omega
          have htake3 : (natToBE (i + 1 + 1) (beVal (cs.take (i + 1 + 1)) + (b + 1) % 256) ++
              cs.drop (i + 1 + 1)).take (i + 1) =
              natToBE (i + 1) ((beVal (cs.take (i + 1 + 1)) + (b + 1) % 256) / 256) := by
            rw [hM, List.append_assoc,
              List.take_append_of_le_length (by rw [natToBE_length]),
              List.take_of_length_le (by simp [natToBE_length])]
          have hdrop3 : (natToBE (i + 1 + 1) (beVal (cs.take (i + 1 + 1)) + (b + 1) % 256) ++
              cs.drop (i + 1 + 1)).drop (i + 1) =
              (beVal (cs.take (i + 1 + 1)) + (b + 1) % 256) % 256 :: cs.drop (i + 1 + 1) := by
            rw [hM, List.append_assoc]
            have hdl := List.drop_left
              (natToBE (i + 1) ((beVal (cs.take (i + 1 + 1)) + (b + 1) % 256) / 256))
              ([(beVal (cs.take (i + 1 + 1)) + (b + 1) % 256) % 256] ++ cs.drop (i + 1 + 1))
            rw [natToBE_length] at hdl
            rw [hdl, List.singleton_append]
          have hb3 : ∀ x ∈ (natToBE (i + 1 + 1) (beVal (cs.take (i + 1 + 1)) + (b + 1) % 256) ++
              cs.drop (i + 1 + 1)).take (i + 1), x < 256 := by
            rw [htake3]; exact natToBE_mem_lt _ _
          rw [ih _ _ hi3 hb3, htake3, hdrop3, beVal_natToBE]
          have hsplit : (b + 1) % 256 ^ (i + 1 + 1) =
              (b + 1) % 256 + 256 * ((b + 1) / 256 % 256 ^ (i + 1)) := by
            rw [pow_succ, mul_comm ((256:Nat) ^ (i + 1)) 256, Nat.mod_mul]
          have hW : beVal (cs.take (i + 1 + 1)) + (b + 1) % 256 ^ (i + 1 + 1) =
              (beVal (cs.take (i + 1 + 1)) + (b + 1) % 256) +
                256 * ((b + 1) / 256 % 256 ^ (i + 1)) := by
            rw [hsplit]; ring
          have hWdiv : (beVal (cs.take (i + 1 + 1)) + (b + 1) % 256 ^ (i + 1 + 1)) / 256 =
              (beVal (cs.take (i + 1 + 1)) + (b + 1) % 256) / 256 +
                (b + 1) / 256 % 256 ^ (i + 1) := by
            rw [hW, Nat.add_mul_div_left _ _ (by norm_num : (0:Nat) < 256)]
          have hWmod : (beVal (cs.take (i + 1 + 1)) + (b + 1) % 256 ^ (i + 1 + 1)) % 256 =
              (beVal (cs.take (i + 1 + 1)) + (b + 1) % 256) % 256 := by
            rw [hW, Nat.add_mul_mod_self_left]
          have hfront : natToBE (i + 1)
              ((beVal (cs.take (i + 1 + 1)) + (b + 1) % 256) / 256 % 256 ^ (i + 1) +
                (b + 1) / 256 % 256 ^ (i + 1)) =
              natToBE (i + 1)
                ((beVal (cs.take (i + 1 + 1)) + (b + 1) % 256 ^ (i + 1 + 1)) / 256) := by
            rw [hWdiv]
            conv_lhs => rw [← natToBE_mod]
            conv_rhs => rw [← natToBE_mod]
            congr 1
            rw [Nat.mod_add_mod]
          rw [hfront]
          have hback : natToBE (i + 1 + 1)
              (beVal (cs.take (i + 1 + 1)) + (b + 1) % 256 ^ (i + 1 + 1)) =
              natToBE (i + 1)
                ((beVal (cs.take (i + 1 + 1)) + (b + 1) % 256 ^ (i + 1 + 1)) / 256) ++
                [(beVal (cs.take (i + 1 + 1)) + (b + 1) % 256) % 256] := by
            rw [natToBE, hWmod]
          rw [hback, List.append_assoc, List.singleton_append]

theorem incrementCounter_spec (cs : List Nat) (blocks : Nat) (h16 : cs.length = 16)
    (hb : ∀ b ∈ cs, b < 256) :
    incrementCounter cs blocks = natToBE 16 (beVal cs + blocks % 2 ^ 128) := by
  have h15 : (15 : Nat) < cs.length := by omega
  have hbt : ∀ b ∈ cs.take 16, b < 256 := fun b hbm => hb b (List.take_subset _ _ hbm)
  have h := incLoop_spec 15 cs blocks h15 hbt
  rw [incrementCounter, h, List.take_of_length_le (by omega),
    List.drop_eq_nil_of_le (by omega), List.append_nil,
    show (256 : Nat) ^ 16 = 2 ^ 128 from by norm_num]

/-- C3: for a 16-byte counter IV and k at least 1 representable as int64,
incrementCounter treated as big-endian 128-bit addition satisfies
counter(IV, k) = counter(counter(IV, k - 1), 1): adding k blocks at once
equals adding k - 1 blocks and then one more, with carries propagating from
byte 15 toward byte 0 and overflow past byte 0 wrapping modulo 2 ^ 128. -/
theorem c3_counter_carry (iv : List Nat) (k : Nat) (hlen : iv.length = 16)
    (hb : ∀ b ∈ iv, b < 256) (hk : 1 ≤ k) (hk63 : k < 2 ^ 63) :
    incrementCounter iv k = incrementCounter (incrementCounter iv (k - 1)) 1 := by
  have hlt : (2:Nat) ^ 63 < 2 ^ 128 := by norm_num
  have hkm : k % 2 ^ 128 = k := Nat.mod_eq_of_lt (by omega)
  have hkm1 : (k - 1) % 2 ^ 128 = k - 1 := Nat.mod_eq_of_lt (by omega)
  have hone : (1 : Nat) % 2 ^ 128 = 1 := Nat.mod_eq_of_lt (by norm_num)
  rw [incrementCounter_spec iv k hlen hb,
    incrementCounter_spec iv (k - 1) hlen hb,
    incrementCounter_spec _ 1 (natToBE_length _ _) (natToBE_mem_lt _ _),
    beVal_natToBE, hkm, hkm1, hone]
  rw [show (256 : Nat) ^ 16 = 2 ^ 128 from by norm_num]
  conv_rhs => rw [← natToBE_mod 16]
  conv_lhs => rw [← natToBE_mod 16]
  rw [show (256 : Nat) ^ 16 = 2 ^ 128 from by norm_num]
  congr 1
  rw [Nat.mod_add_mod]
  congr 1
  omega

/-- Witness for c3_counter_carry at IV = 15 zero bytes followed by 255 and
k = 300 (a block count that carries across two bytes). -/
theorem c3_counter_carry_witness :
    ((List.replicate 15 0 ++ [255]).length = 16 ∧
      (∀ b ∈ List.replicate 15 0 ++ [255], b < 256) ∧ 1 ≤ 300 ∧ 300 < 2 ^ 63) ∧
    incrementCounter (List.replicate 15 0 ++ [255]) 300 =
      incrementCounter (incrementCounter (List.replicate 15 0 ++ [255]) (300 - 1)) 1 :=
  ⟨⟨by decide, by decide, by decide, by norm_num⟩,
    c3_counter_carry (List.replicate 15 0 ++ [255]) 300 (by decide) (by decide) (by decide)
      (by norm_num)⟩

/-! ## CTR keystream alignment (C1) -/

theorem xorKS_length (F : Nat → Nat → Nat) (c0 : List Nat) :
    ∀ (idx : Nat) (l : List Nat), (xorKS F c0 idx l).length = l.length := by
  intro idx l
  induction l generalizing idx with
  | nil => rfl
  | cons b t ih => simp [xorKS, ih]

theorem xorKS_getElem? (F : Nat → Nat → Nat) (c0 : List Nat) :
    ∀ (l : List Nat) (idx k : Nat),
    (xorKS F c0 idx l)[k]? =
      l[k]?.map (fun b => b ^^^ F ((beVal c0 + (idx + k) / 16) % 2 ^ 128) ((idx + k) % 16)) := by
  intro l
  induction l with
  | nil => intro idx k; simp [xorKS]
  | cons b t ih =>
      intro idx k
      match k with
      | 0 => simp [xorKS]
      | k + 1 =>
          have hx : (xorKS F c0 idx (b :: t))[k + 1]? = (xorKS F c0 (idx + 1) t)[k]? := by
            rw [xorKS, List.getElem?_cons_succ]
          rw [hx, ih (idx + 1) k, show idx + 1 + k = idx + (k + 1) from by omega,
            List.getElem?_cons_succ]

theorem encryptCTR_getElem? (F : Nat → Nat → Nat) (iv P : List Nat) (p : Nat) :
    (encryptCTR F iv P)[p]? =
      P[p]?.map (fun b => b ^^^ F ((beVal iv + p / 16) % 2 ^ 128) (p % 16)) := by
  rw [encryptCTR, xorKS_getElem?, Nat.zero_add]

theorem encryptCTR_length (F : Nat → Nat → Nat) (iv P : List Nat) :
    (encryptCTR F iv P).length = P.length := xorKS_length F iv 0 P

/-- Core alignment fact: decrypting the ciphertext slice starting at absolute
position s with a CTR stream whose counter equals IV + s / 16 (mod 2 ^ 128)
and that has discarded s mod 16 bytes recovers the plaintext slice. -/
theorem decrypt_chunk (F : Nat → Nat → Nat) (iv P : List Nat) (s n : Nat) (ctr : List Nat)
    (hc : beVal ctr % 2 ^ 128 = (beVal iv + s / 16) % 2 ^ 128) :
    xorKS F ctr (s % 16) (((encryptCTR F iv P).drop s).take n) = (P.drop s).take n := by
  apply List.ext_getElem?
  intro k
  rw [xorKS_getElem?, List.getElem?_take, List.getElem?_take]
  by_cases hk : k < n
  · rw [if_pos hk, if_pos hk, List.getElem?_drop, List.getElem?_drop, encryptCTR_getElem?]
    match hP : P[s + k]? with
    | none => rfl
    | some v =>
        simp only [Option.map_some']
        congr 1
        have hdiv : (s + k) / 16 = s / 16 + (s % 16 + k) / 16 := by
          conv_lhs => rw [show s + k = 16 * (s / 16) + (s % 16 + k) from by omega]
          rw [Nat.mul_add_div (by norm_num)]
        have hmod : (s + k) % 16 = (s % 16 + k) % 16 := by
          conv_lhs => rw [show s + k = 16 * (s / 16) + (s % 16 + k) from by omega]
          rw [Nat.mul_add_mod]
        have hctr : (beVal ctr + (s % 16 + k) / 16) % 2 ^ 128 =
            (beVal iv + (s + k) / 16) % 2 ^ 128 := by
          rw [hdiv, ← Nat.add_assoc]
          conv_lhs => rw [← Nat.mod_add_mod, hc, Nat.mod_add_mod]
        rw [hctr, hmod, Nat.xor_cancel_right]
  · rw [if_neg hk, if_neg hk]
    simp

theorem initCipherStream_plain (K iv : List Nat) (hK : K.length = 32) (hiv : iv.length = 16)
    (m : Nat) :
    initCipherStream ⟨CipherAES256CTR, [], K, iv⟩ ((m : Nat) : Int) =
      .ok ⟨(if 0 < m then incrementCounter iv (m / 16) else iv), m % 16⟩ := by
  have hpad : iv.take 16 ++ List.replicate (16 - iv.length) 0 = iv := by
    rw [List.take_of_length_le (by omega), hiv]
    simp
  rw [initCipherStream]
  rw [if_pos (Or.inr (Or.inr hK))]
  have hdiv : (((m : Nat) : Int) / 16).toNat = m / 16 := rfl
  have hmodeq : ((m : Nat) : Int) % 16 = (((m % 16 : Nat) : Nat) : Int) := rfl
  simp only [hpad, hdiv, hmodeq]
  by_cases hm : 0 < m
  · rw [if_pos (by exact_mod_cast hm)]
    by_cases hm16 : 0 < m % 16
    · rw [if_pos (by exact_mod_cast hm16), if_pos hm, Int.toNat_natCast]
    · rw [if_neg (by exact_mod_cast hm16), if_pos hm]
      have h0 : m % 16 = 0 := by omega
      rw [h0]
  · rw [if_neg (by exact_mod_cast hm), if_neg hm]
    have hm0 : m = 0 := by omega
    subst hm0
    rfl

/-- C1: encrypting a plaintext P under AES-256-CTR with file key K and IV I,
then seeking the cryptor to absolute offset s (SeekStart) and reading n
bytes, yields exactly the plaintext slice P[s : s + n]: initCipherStream
aligns the cipher state with the absolute byte offset, including
non-block-aligned offsets.  The AES block permutation (Go library code) is
abstracted as the arbitrary keystream function F. -/
theorem c1_cipher_roundtrip (F : Nat → Nat → Nat) (K iv P : List Nat) (s n : Nat)
    (hK : K.length = 32) (hiv : iv.length = 16) (hivb : ∀ b ∈ iv, b < 256)
    (hsn : s + n ≤ P.length) :
    decryptSeekRead F K iv (encryptCTR F iv P) s n = .ok ((P.drop s).take n) := by
  have hCl : (encryptCTR F iv P).length = P.length := encryptCTR_length F iv P
  have hK0 : 0 < K.length := by omega
  have hLoad : LoadMetadata (NewAES256CTR Nat)
      (some ⟨CipherAES256CTR, [], K, iv⟩) (.error "unused") =
      .ok ⟨some ⟨CipherAES256CTR, [], K, iv⟩, none, false, none, 0, 0, -1, false⟩ := by
    rw [LoadMetadata]
    rw [if_neg (by simp), if_pos hK0]
    rfl
  have hinit0 : initCipherStream ⟨CipherAES256CTR, [], K, iv⟩ (0 : Int) = .ok ⟨iv, 0⟩ := by
    have h := initCipherStream_plain K iv hK hiv 0
    simpa using h
  have hSet : SetSource ⟨some ⟨CipherAES256CTR, [], K, iv⟩, none, false, none, 0, 0, -1, false⟩
      (some (0 : Nat)) true ((encryptCTR F iv P).length : Int) 0 =
      (.ok (), ⟨some ⟨CipherAES256CTR, [], K, iv⟩, some 0, true, some ⟨iv, 0⟩, 0, 0,
        ((encryptCTR F iv P).length : Int), false⟩) := by
    simp only [SetSource, hinit0]
  have hctrS : beVal (if 0 < s then incrementCounter iv (s / 16) else iv) % 2 ^ 128 =
      (beVal iv + s / 16) % 2 ^ 128 := by
    by_cases hs : 0 < s
    · rw [if_pos hs, incrementCounter_spec iv (s / 16) hiv hivb, beVal_natToBE,
        show (256 : Nat) ^ 16 = 2 ^ 128 from by norm_num]
      conv_lhs => rw [Nat.add_comm]
      rw [Nat.mod_add_mod, Nat.add_comm]
      exact Nat.mod_mod_of_dvd _ dvd_rfl
    · rw [if_neg hs]
      have : s = 0 := by omega
      subst this
      simp
  have hSeek : AES256CTR.Seek (bytesSrcOps (encryptCTR F iv P))
      ⟨some ⟨CipherAES256CTR, [], K, iv⟩, some 0, true, some ⟨iv, 0⟩, 0, 0,
        ((encryptCTR F iv P).length : Int), false⟩ ((s : Nat) : Int) 0 =
      (.ok ((s : Nat) : Int),
        ⟨some ⟨CipherAES256CTR, [], K, iv⟩, some s, true,
          some ⟨(if 0 < s then incrementCounter iv (s / 16) else iv), s % 16⟩, 0,
          ((s : Nat) : Int), ((encryptCTR F iv P).length : Int), false⟩) := by
    have hnn : ¬ (((s : Nat) : Int) < 0) := by omega
    have habs : (0 : Int) + ((s : Nat) : Int) = ((s : Nat) : Int) := by omega
    have hseekop : (bytesSrcOps (encryptCTR F iv P)).seek 0 ((s : Nat) : Int) = .ok s := by
      simp only [bytesSrcOps]
      rw [if_neg hnn, Int.toNat_natCast]
    simp only [AES256CTR.Seek, if_neg (show ¬(true = false) from by decide), eq_self_iff_true,
      if_true, habs, if_neg hnn, hseekop, initCipherStream_plain K iv hK hiv s]
  simp only [decryptSeekRead, hLoad, hSet, hSeek]
  by_cases hend : (encryptCTR F iv P).length ≤ s
  · have hn0 : n = 0 := by omega
    subst hn0
    have hread : (bytesSrcOps (encryptCTR F iv P)).read s 0 = (([], some RErr.eof), s) := by
      simp only [bytesSrcOps]
      rw [if_pos hend]
    have hRead : AES256CTR.Read F (bytesSrcOps (encryptCTR F iv P))
        ⟨some ⟨CipherAES256CTR, [], K, iv⟩, some s, true,
          some ⟨(if 0 < s then incrementCounter iv (s / 16) else iv), s % 16⟩, 0,
          ((s : Nat) : Int), ((encryptCTR F iv P).length : Int), false⟩ 0 =
        (([], some RErr.eof),
          ⟨some ⟨CipherAES256CTR, [], K, iv⟩, some s, true,
            some ⟨(if 0 < s then incrementCounter iv (s / 16) else iv), s % 16⟩, 0,
            ((s : Nat) : Int), ((encryptCTR F iv P).length : Int), true⟩) := by
      simp only [AES256CTR.Read, hread]
      rfl
    simp only [hRead]
    simp
  · push_neg at hend
    have hchunk : ((encryptCTR F iv P).drop s).take n =
        ((encryptCTR F iv P).drop s).take n := rfl
    have hread : (bytesSrcOps (encryptCTR F iv P)).read s n =
        ((((encryptCTR F iv P).drop s).take n, none),
          s + (((encryptCTR F iv P).drop s).take n).length) := by
      simp only [bytesSrcOps]
      rw [if_neg (by omega)]
    have hclen : (((encryptCTR F iv P).drop s).take n).length = n := by
      rw [List.length_take, List.length_drop]
      omega
    by_cases hn : 0 < n
    · have hRead : AES256CTR.Read F (bytesSrcOps (encryptCTR F iv P))
          ⟨some ⟨CipherAES256CTR, [], K, iv⟩, some s, true,
            some ⟨(if 0 < s then incrementCounter iv (s / 16) else iv), s % 16⟩, 0,
            ((s : Nat) : Int), ((encryptCTR F iv P).length : Int), false⟩ n =
          ((xorKS F (if 0 < s then incrementCounter iv (s / 16) else iv) (s % 16)
              (((encryptCTR F iv P).drop s).take n), none),
            ⟨some ⟨CipherAES256CTR, [], K, iv⟩,
              some (s + (((encryptCTR F iv P).drop s).take n).length), true,
              some ⟨(if 0 < s then incrementCounter iv (s / 16) else iv),
                s % 16 + (((encryptCTR F iv P).drop s).take n).length⟩, 0,
              ((s : Nat) : Int) + (((encryptCTR F iv P).drop s).take n).length,
              ((encryptCTR F iv P).length : Int), false⟩) := by
        simp only [AES256CTR.Read, hread]
        rw [if_neg (by decide)]
        rw [if_neg (by simp)]
        rw [if_pos (by rw [hclen]; exact hn)]
        rfl
      simp only [hRead]
      exact congrArg Except.ok (decrypt_chunk F iv P s n _ hctrS)
    · have hn0 : n = 0 := by omega
      subst hn0
      have hRead : AES256CTR.Read F (bytesSrcOps (encryptCTR F iv P))
          ⟨some ⟨CipherAES256CTR, [], K, iv⟩, some s, true,
            some ⟨(if 0 < s then incrementCounter iv (s / 16) else iv), s % 16⟩, 0,
            ((s : Nat) : Int), ((encryptCTR F iv P).length : Int), false⟩ 0 =
          (([], none),
            ⟨some ⟨CipherAES256CTR, [], K, iv⟩, some (s + 0), true,
              some ⟨(if 0 < s then incrementCounter iv (s / 16) else iv), s % 16⟩, 0,
              ((s : Nat) : Int), ((encryptCTR F iv P).length : Int), false⟩) := by
        simp only [AES256CTR.Read, hread]
        simp
      simp only [hRead]
      simp

/-- Witness for c1_cipher_roundtrip: a concrete key, IV, 40-byte plaintext
and the non-block-aligned offset 17. -/
theorem c1_cipher_roundtrip_witness :
    ((List.replicate 32 7).length = 32 ∧ (List.replicate 16 3).length = 16 ∧
      (∀ b ∈ List.replicate 16 3, b < 256) ∧ 17 + 10 ≤ (List.range 40).length) ∧
    decryptSeekRead (fun a b => (a + b) % 256) (List.replicate 32 7) (List.replicate 16 3)
        (encryptCTR (fun a b => (a + b) % 256) (List.replicate 16 3) (List.range 40)) 17 10 =
      .ok (((List.range 40).drop 17).take 10) :=
  ⟨⟨by decide, by decide, by decide, by decide⟩,
    c1_cipher_roundtrip (fun a b => (a + b) % 256) (List.replicate 32 7) (List.replicate 16 3)
      (List.range 40) 17 10 (by decide) (by decide) (by decide) (by decide)⟩

/-- C8: Seek is atomic on structural errors.  If the metadata is not loaded,
the source is not set, the source is unseekable, the whence value is
invalid, SeekEnd is used with a negative size, or the computed new position
is negative, then Seek returns an error and the cryptor state, including
pos, eof, the cipher stream and counter_offset, is exactly the state before
the call. -/
theorem c8_seek_structural_atomic {σ : Type} (ops : SrcOps σ) (e : AES256CTR σ)
    (offset : Int) (whence : Nat)
    (h : e.metadata = none ∨ e.src = none ∨ e.hasSeeker = false ∨
      ¬(whence = 0 ∨ whence = 1 ∨ whence = 2) ∨
      (whence = 2 ∧ e.size < 0) ∨
      ((whence = 0 ∨ whence = 1 ∨ (whence = 2 ∧ 0 ≤ e.size)) ∧
        seekNewPos e offset whence < 0)) :
    ∃ m, AES256CTR.Seek ops e offset whence = (Except.error m, e) := by
  cases hmd : e.metadata with
  | none =>
      refine ⟨"metadata not loaded, call LoadMetadata first", ?_⟩
      simp [AES256CTR.Seek, hmd]
  | some md =>
      cases hsc : e.src with
      | none =>
          refine ⟨"source not set, call SetSource first", ?_⟩
          simp [AES256CTR.Seek, hmd, hsc]
      | some s0 =>
          by_cases hskr : e.hasSeeker = false
          · refine ⟨"source does not support seeking", ?_⟩
            simp [AES256CTR.Seek, hmd, hsc, hskr, if_pos rfl]
          · rcases h with h | h | h | hwh | ⟨hw2, hsz⟩ | ⟨hwok, hneg⟩
            · rw [hmd] at h; cases h
            · rw [hsc] at h; cases h
            · exact absurd h hskr
            · have h0 : ¬ whence = 0 := fun hh => hwh (Or.inl hh)
              have h1 : ¬ whence = 1 := fun hh => hwh (Or.inr (Or.inl hh))
              have h2 : ¬ whence = 2 := fun hh => hwh (Or.inr (Or.inr hh))
              refine ⟨"invalid whence", ?_⟩
              simp [AES256CTR.Seek, hmd, hsc, if_neg hskr, if_neg h0, if_neg h1,
                if_neg h2]
            · subst hw2
              refine ⟨"size unknown, call SetSize before using SeekEnd", ?_⟩
              simp [AES256CTR.Seek, hmd, hsc, if_neg hskr,
                if_neg (by decide : ¬ (2 : Nat) = 0), if_neg (by decide : ¬ (2 : Nat) = 1),
                if_pos rfl, if_pos hsz]
            · refine ⟨"negative position", ?_⟩
              rcases hwok with hw | hw | ⟨hw, hsz⟩
              · subst hw
                have hno : offset < 0 := by
                  have := hneg
                  simp only [seekNewPos, if_pos rfl] at this
                  exact this
                simp [AES256CTR.Seek, hmd, hsc, if_neg hskr, if_pos rfl, if_pos hno]
              · subst hw
                have hno : e.pos + offset < 0 := by
                  have := hneg
                  simp only [seekNewPos, if_neg (by decide : ¬ (1 : Nat) = 0),
                    if_pos rfl] at this
                  exact this
                simp [AES256CTR.Seek, hmd, hsc, if_neg hskr,
                  if_neg (by decide : ¬ (1 : Nat) = 0), if_pos rfl, if_pos hno]
              · subst hw
                have hno : e.size + offset < 0 := by
                  have := hneg
                  simp only [seekNewPos, if_neg (by decide : ¬ (2 : Nat) = 0),
                    if_neg (by decide : ¬ (2 : Nat) = 1)] at this
                  exact this
                simp [AES256CTR.Seek, hmd, hsc, if_neg hskr,
                  if_neg (by decide : ¬ (2 : Nat) = 0), if_neg (by decide : ¬ (2 : Nat) = 1),
                  if_pos rfl, if_neg (by omega : ¬ e.size < 0), if_pos hno]

/-- Witness for c8_seek_structural_atomic: a fresh cryptor with no metadata
loaded. -/
theorem c8_seek_structural_atomic_witness :
    (NewAES256CTR Unit).metadata = none ∧
    ∃ m, AES256CTR.Seek ⟨fun s _ => (([], none), s), fun s _ => .ok s⟩
      (NewAES256CTR Unit) 0 0 = (Except.error m, NewAES256CTR Unit) :=
  ⟨rfl, c8_seek_structural_atomic ⟨fun s _ => (([], none), s), fun s _ => .ok s⟩
    (NewAES256CTR Unit) 0 0 (Or.inl rfl)⟩

/-- Counterexample to C4 as stated: when the source Read returns one byte
together with a non-EOF error, the byte is returned raw; the keystream
(constant byte 1 here) is not applied, so the returned data differs from the
cipher-applied data the claim requires. -/
theorem c4_counterexample :
    (AES256CTR.Read (fun _ _ => 1)
      ⟨fun s _ => (([0], some (RErr.other "disk error")), s), fun s _ => .ok s⟩
      ⟨some ⟨CipherAES256CTR, [], List.replicate 32 7, List.replicate 16 0⟩, some (), true,
        some ⟨List.replicate 16 0, 0⟩, 0, 0, 1, false⟩ 1).1 =
      ([0], some (RErr.other "disk error")) ∧
    xorKS (fun _ _ => 1) (List.replicate 16 0) 0 [0] = [1] := by
  constructor
  · rfl
  · rfl

/-- C4 amended: when the underlying source Read returns n > 0 bytes together
with io.EOF, Read applies the cipher keystream to those bytes and passes EOF
through; when it returns n > 0 bytes together with a non-EOF error, Read
returns the error immediately with the bytes unciphered and the cursor
unchanged (only the source advanced). -/
theorem c4_read_error_semantics {σ : Type} (F : Nat → Nat → Nat) (ops : SrcOps σ)
    (e : AES256CTR σ) (s0 : σ) (bufLen : Nat) (data : List Nat) (err : Option RErr) (s1 : σ)
    (st : CTRStream) (hsrc : e.src = some s0) (heof : e.eof = false)
    (hstream : e.stream = some st) (hread : ops.read s0 bufLen = ((data, err), s1))
    (hlen : data ≠ []) :
    (err = some RErr.eof →
      AES256CTR.Read F ops e bufLen =
        ((xorKS F st.counter st.used data, some RErr.eof),
          { e with
            src := some s1, eof := true,
            stream := some ⟨st.counter, st.used + data.length⟩,
            pos := e.pos + (data.length : Int) })) ∧
    (∀ m, err = some (RErr.other m) →
      AES256CTR.Read F ops e bufLen = ((data, some (RErr.other m)), { e with src := some s1 })) := by
  obtain ⟨md, src, hskr, stm, co, pos, size, eof⟩ := e
  subst hsrc heof hstream
  constructor
  · intro herr
    subst herr
    simp [AES256CTR.Read, hread, hlen, List.length_pos, xorKeyStream]
  · intro m herr
    subst herr
    simp [AES256CTR.Read, hread]

/-- Witness for c4_read_error_semantics: a scripted one-byte source read
ending in io.EOF; the returned byte is the source byte XORed with the
constant keystream byte 1. -/
theorem c4_read_error_semantics_witness :
    (([5] : List Nat) ≠ []) ∧
    AES256CTR.Read (fun _ _ => 1)
        ⟨fun s _ => (([5], some RErr.eof), s), fun s _ => .ok s⟩
        ⟨some ⟨CipherAES256CTR, [], List.replicate 32 7, List.replicate 16 0⟩, some (), true,
          some ⟨List.replicate 16 0, 0⟩, 0, 0, 1, false⟩ 1 =
      (([4], some RErr.eof),
        ⟨some ⟨CipherAES256CTR, [], List.replicate 32 7, List.replicate 16 0⟩, some (), true,
          some ⟨List.replicate 16 0, 1⟩, 0, 1, 1, true⟩) :=
  ⟨by decide,
    (c4_read_error_semantics (fun _ _ => 1)
      ⟨fun s _ => (([5], some RErr.eof), s), fun s _ => .ok s⟩
      ⟨some ⟨CipherAES256CTR, [], List.replicate 32 7, List.replicate 16 0⟩, some (), true,
        some ⟨List.replicate 16 0, 0⟩, 0, 0, 1, false⟩ () 1 [5] (some RErr.eof) ()
      ⟨List.replicate 16 0, 0⟩ rfl rfl rfl rfl (by decide)).1 rfl⟩

/-! ## Event algebra: idempotence (C2) and output ordering (C6) -/

theorem inv_update (states : StMap) (order : List String) (k : String) (v : eventState)
    (h1 : order.Nodup) (h2 : ∀ fid ∈ order, (states fid).isSome) :
    order.Nodup ∧
      ∀ fid ∈ order, ((fun fid => if fid = k then some v else states fid) fid).isSome := by
  refine ⟨h1, fun fid hf => ?_⟩
  by_cases h : fid = k
  · simp [h]
  · simp [h, h2 fid hf]

theorem inv_drop (states : StMap) (order : List String) (k : String)
    (h1 : order.Nodup) (h2 : ∀ fid ∈ order, (states fid).isSome) :
    (order.erase k).Nodup ∧
      ∀ fid ∈ order.erase k, ((fun fid => if fid = k then none else states fid) fid).isSome := by
  refine ⟨h1.erase k, fun fid hf => ?_⟩
  obtain ⟨hne, hmem⟩ := (List.Nodup.mem_erase_iff h1).mp hf
  simp [hne, h2 fid hmem]

set_option maxHeartbeats 1000000 in
theorem debounceStep_inv (acc : StMap × List String) (e : Event)
    (h1 : acc.2.Nodup) (h2 : ∀ fid ∈ acc.2, (acc.1 fid).isSome) :
    (debounceStep acc e).2.Nodup ∧
      ∀ fid ∈ (debounceStep acc e).2, ((debounceStep acc e).1 fid).isSome := by
  obtain ⟨states, order⟩ := acc
  simp only at h1 h2
  cases hm : states e.FileID with
  | none =>
      simp only [debounceStep, hm]
      have hk : e.FileID ∉ order := by
        intro hmem
        have := h2 _ hmem
        rw [hm] at this
        simp at this
      constructor
      · simp [List.nodup_append, h1, hk]
      · intro fid hf
        rcases List.mem_append.mp hf with hf | hf
        · by_cases h : fid = e.FileID
          · simp [h]
          · simp [h, h2 fid hf]
        · simp at hf
          simp [hf]
  | some st =>
      simp only [debounceStep, hm]
      split_ifs <;>
        first
          | exact ⟨h1, h2⟩
          | exact inv_update states order e.FileID _ h1 h2
          | exact inv_drop states order e.FileID h1 h2

theorem foldl_inv (xs : List Event) : ∀ acc : StMap × List String,
    acc.2.Nodup → (∀ fid ∈ acc.2, (acc.1 fid).isSome) →
    (xs.foldl debounceStep acc).2.Nodup ∧
      ∀ fid ∈ (xs.foldl debounceStep acc).2, ((xs.foldl debounceStep acc).1 fid).isSome := by
  induction xs with
  | nil => intro acc h1 h2; exact ⟨h1, h2⟩
  | cons e t ih =>
      intro acc h1 h2
      have h := debounceStep_inv acc e h1 h2
      exact ih (debounceStep acc e) h.1 h.2

theorem mkOut_fileID (fid : String) (st : eventState) (ev : Event)
    (h : mkOut fid st = some ev) : ev.FileID = fid := by
  unfold mkOut at h
  split_ifs at h <;> cases h <;> rfl

theorem mkOut_canonical (fid : String) (st : eventState) (ev : Event)
    (h : mkOut fid st = some ev) : mkOut ev.FileID ⟨ev.typ, ev.From, ev.To⟩ = some ev := by
  unfold mkOut at h
  split_ifs at h <;> cases h <;>
    simp [mkOut, EventTypeCreate, EventTypeModify, EventTypeRename, EventTypeDelete]

theorem out_ids_sublist (states : StMap) : ∀ order : List String,
    ((order.filterMap (fun fid => (states fid).bind (mkOut fid))).map Event.FileID).Sublist
      order := by
  intro order
  induction order with
  | nil => simp
  | cons a t ih =>
      rw [List.filterMap_cons]
      cases hba : (states a).bind (mkOut a) with
      | none => exact ih.cons a
      | some ev =>
          obtain ⟨st, _, hmk⟩ := Option.bind_eq_some.mp hba
          rw [List.map_cons, mkOut_fileID a st ev hmk]
          exact ih.cons₂ a

theorem filterMap_canonical (g : String → Option Event) : ∀ ys : List Event,
    (∀ e ∈ ys, g e.FileID = some e) → (ys.map Event.FileID).filterMap g = ys := by
  intro ys
  induction ys with
  | nil => intro _; rfl
  | cons e t ih =>
      intro h
      rw [List.map_cons, List.filterMap_cons, h e (List.mem_cons_self e t),
        ih (fun x hx => h x (List.mem_cons_of_mem e hx))]

theorem foldl_fresh : ∀ (ys : List Event) (states : StMap) (order : List String),
    (∀ e ∈ ys, states e.FileID = none) → (ys.map Event.FileID).Nodup →
    (ys.foldl debounceStep (states, order)).2 = order ++ ys.map Event.FileID ∧
    (∀ e ∈ ys,
      (ys.foldl debounceStep (states, order)).1 e.FileID = some ⟨e.typ, e.From, e.To⟩) ∧
    (∀ fid, fid ∉ ys.map Event.FileID →
      (ys.foldl debounceStep (states, order)).1 fid = states fid) := by
  intro ys
  induction ys with
  | nil =>
      intro states order _ _
      exact ⟨(List.append_nil order).symm, by simp, fun fid _ => rfl⟩
  | cons e t ih =>
      intro states order hfr hnd
      rw [List.map_cons, List.nodup_cons] at hnd
      obtain ⟨hnotin, hnd2⟩ := hnd
      have hstep : debounceStep (states, order) e =
          (fun fid => if fid = e.FileID then some ⟨e.typ, e.From, e.To⟩ else states fid,
           order ++ [e.FileID]) := by
        simp only [debounceStep]
        rw [hfr e (List.mem_cons_self e t)]
      rw [List.foldl_cons, hstep]
      have hfr2 : ∀ x ∈ t,
          (fun fid => if fid = e.FileID then some ⟨e.typ, e.From, e.To⟩ else states fid)
            x.FileID = none := by
        intro x hx
        have hne : x.FileID ≠ e.FileID := by
          intro hh
          exact hnotin (hh ▸ List.mem_map_of_mem Event.FileID hx)
        simp only [if_neg hne]
        exact hfr x (List.mem_cons_of_mem e hx)
      obtain ⟨ho, hs, hun⟩ := ih
        (fun fid => if fid = e.FileID then some ⟨e.typ, e.From, e.To⟩ else states fid)
        (order ++ [e.FileID]) hfr2 hnd2
      refine ⟨?_, ?_, ?_⟩
      · rw [ho, List.append_assoc, List.singleton_append, List.map_cons]
      · intro x hx
        rcases List.mem_cons.mp hx with rfl | hx
        · rw [hun x.FileID hnotin, if_pos rfl]
        · exact hs x hx
      · intro fid hf
        have hf1 : fid ∉ t.map Event.FileID := fun hh => hf (by simp [hh])
        have hf2 : fid ≠ e.FileID := fun hh => hf (by simp [hh])
        rw [hun fid hf1, if_neg hf2]

/-- C2: the event algebra is idempotent: for every finite event sequence xs,
DebounceEvents (DebounceEvents xs) = DebounceEvents xs. -/
theorem c2_debounce_idempotent (xs : List Event) :
    DebounceEvents (DebounceEvents xs) = DebounceEvents xs := by
  by_cases hemp : xs.isEmpty
  · have h0 : DebounceEvents xs = [] := by rw [DebounceEvents, if_pos hemp]
    rw [h0]
    rfl
  · have hD : DebounceEvents xs =
        (xs.foldl debounceStep (fun _ => none, [])).2.filterMap
          (fun fid => ((xs.foldl debounceStep (fun _ => none, [])).1 fid).bind (mkOut fid)) := by
      rw [DebounceEvents, if_neg hemp]
    have hinv := foldl_inv xs (fun _ => none, []) List.nodup_nil (by simp)
    have hids : ((DebounceEvents xs).map Event.FileID).Nodup := by
      rw [hD]
      exact (out_ids_sublist _ _).nodup hinv.1
    have hcan : ∀ e ∈ DebounceEvents xs, mkOut e.FileID ⟨e.typ, e.From, e.To⟩ = some e := by
      intro e he
      rw [hD] at he
      obtain ⟨fid, _, hbind⟩ := List.mem_filterMap.mp he
      obtain ⟨st, _, hmk⟩ := Option.bind_eq_some.mp hbind
      exact mkOut_canonical fid st e hmk
    by_cases hemp2 : (DebounceEvents xs).isEmpty
    · rw [List.isEmpty_iff.mp hemp2]
      rfl
    · rw [DebounceEvents, if_neg hemp2]
      obtain ⟨ho, hs, _⟩ :=
        foldl_fresh (DebounceEvents xs) (fun _ => none) [] (fun e _ => rfl) hids
      show ((DebounceEvents xs).foldl debounceStep (fun _ => none, [])).2.filterMap
        (fun fid =>
          (((DebounceEvents xs).foldl debounceStep (fun _ => none, [])).1 fid).bind
            (mkOut fid)) = DebounceEvents xs
      rw [ho, List.nil_append]
      apply filterMap_canonical
      intro e he
      rw [hs e he]
      show mkOut e.FileID ⟨e.typ, e.From, e.To⟩ = some e
      exact hcan e he

theorem contains_false_not_mem {l : List String} {a : String} (h : l.contains a = false) :
    a ∉ l := by
  intro hm
  have h2 : List.elem a l = true := List.elem_iff.mpr hm
  rw [show l.contains a = List.elem a l from rfl, h2] at h
  cases h

set_option maxHeartbeats 1000000 in
theorem debounceStep_some_facts (states : StMap) (order : List String) (e : Event)
    (st : eventState) (hm : states e.FileID = some st) :
    ((debounceStep (states, order) e).2 = order ∨
      (debounceStep (states, order) e).2 = order.erase e.FileID) ∧
    (∀ fid, fid ≠ e.FileID → (debounceStep (states, order) e).1 fid = states fid) ∧
    (dropsEntry states e = false → (debounceStep (states, order) e).1 e.FileID ≠ none) := by
  simp only [debounceStep, hm]
  split_ifs <;>
    refine ⟨by first | exact Or.inl rfl | exact Or.inr rfl,
      fun fid hne => by simp [if_neg hne], fun hdrop => ?_⟩ <;>
    simp_all [dropsEntry, hm, EventTypeCreate, EventTypeModify, EventTypeRename,
      EventTypeDelete]

set_option maxHeartbeats 1000000 in
theorem c6_aux : ∀ (rem : List Event) (states : StMap) (order dropped fa : List String),
    reintroAux rem (states, order) dropped = true →
    order.Sublist fa →
    (∀ fid, states fid = none → fid ∉ dropped → fid ∉ fa) →
    (rem.foldl debounceStep (states, order)).2.Sublist
      ((rem.map Event.FileID).foldl
        (fun acc fid => if fid ∈ acc then acc else acc ++ [fid]) fa) := by
  intro rem
  induction rem with
  | nil => intro states order dropped fa _ hsub _; exact hsub
  | cons e t ih =>
      intro states order dropped fa hre hsub hunseen
      rw [reintroAux] at hre
      simp only [Bool.and_eq_true] at hre
      obtain ⟨hcond, hrest⟩ := hre
      rw [List.foldl_cons, List.map_cons, List.foldl_cons]
      cases hm : states e.FileID with
      | none =>
          have hnd : e.FileID ∉ dropped := by
            simp only [hm, Option.isNone_none, if_pos] at hcond
            rcases hcont : List.contains dropped e.FileID with _ | _
            · exact contains_false_not_mem hcont
            · rw [hcont] at hcond; cases hcond
          have hnfa : e.FileID ∉ fa := hunseen _ hm hnd
          have hdropsF : dropsEntry states e = false := by simp [dropsEntry, hm]
          have hstep : debounceStep (states, order) e =
              (fun fid => if fid = e.FileID then some ⟨e.typ, e.From, e.To⟩ else states fid,
               order ++ [e.FileID]) := by
            simp only [debounceStep]
            rw [hm]
          rw [hstep, if_neg hnfa]
          rw [hstep, hdropsF] at hrest
          simp only [Bool.false_eq_true, if_neg] at hrest
          refine ih _ _ dropped (fa ++ [e.FileID]) ?_ ?_ ?_
          · exact hrest
          · exact hsub.append (List.Sublist.refl _)
          · intro fid hf hnd2
            by_cases hfe : fid = e.FileID
            · subst hfe
              rw [if_pos rfl] at hf
              cases hf
            · rw [if_neg hfe] at hf
              have := hunseen fid hf hnd2
              simp [List.mem_append, this, hfe]
      | some st =>
          obtain ⟨hord, hoth, hnonone⟩ := debounceStep_some_facts states order e st hm
          rw [show (if e.FileID ∈ fa then fa else fa ++ [e.FileID]) =
            (if e.FileID ∈ fa then fa else fa ++ [e.FileID]) from rfl]
          have hfa2 : fa.Sublist (if e.FileID ∈ fa then fa else fa ++ [e.FileID]) := by
            split_ifs
            · exact List.Sublist.refl _
            · exact List.sublist_append_left _ _
          refine ih (debounceStep (states, order) e).1 (debounceStep (states, order) e).2
            (if dropsEntry states e then e.FileID :: dropped else dropped)
            (if e.FileID ∈ fa then fa else fa ++ [e.FileID]) hrest ?_ ?_
          · rcases hord with h | h
            · rw [h]; exact hsub.trans hfa2
            · rw [h]; exact ((List.erase_sublist _ _).trans hsub).trans hfa2
          · intro fid hf hnd2
            by_cases hfe : fid = e.FileID
            · subst hfe
              have hdropsT : dropsEntry states e = true := by
                rcases hD : dropsEntry states e with _ | _
                · exact absurd hf (hnonone hD)
                · rfl
              rw [hdropsT] at hnd2
              simp at hnd2
            · rw [hoth fid hfe] at hf
              have hnd3 : fid ∉ dropped := by
                intro hx
                apply hnd2
                split_ifs
                · exact List.mem_cons_of_mem _ hx
                · exact hx
              have := hunseen fid hf hnd3
              split_ifs
              · exact this
              · simp [List.mem_append, this, hfe]

/-- Counterexample to C6 as stated: in the input Create(A), Modify(B),
Delete(A), Create(A) the entry for A is dropped by the ephemeral rule and
re-introduced afterwards; the code re-appends A at the end of the order
list, so the output order is B before A while first-appearance order of the
input is A before B. -/
theorem c6_counterexample :
    (DebounceEvents
        [⟨EventTypeCreate, "A", "/a", ""⟩, ⟨EventTypeModify, "B", "/b", ""⟩,
          ⟨EventTypeDelete, "A", "/a", ""⟩, ⟨EventTypeCreate, "A", "/a", ""⟩]).map
        Event.FileID = ["B", "A"] ∧
    firstAppearances
        (([⟨EventTypeCreate, "A", "/a", ""⟩, ⟨EventTypeModify, "B", "/b", ""⟩,
          ⟨EventTypeDelete, "A", "/a", ""⟩,
          ⟨EventTypeCreate, "A", "/a", ""⟩] : List Event).map Event.FileID) = ["A", "B"] ∧
    ¬ ((DebounceEvents
        [⟨EventTypeCreate, "A", "/a", ""⟩, ⟨EventTypeModify, "B", "/b", ""⟩,
          ⟨EventTypeDelete, "A", "/a", ""⟩, ⟨EventTypeCreate, "A", "/a", ""⟩]).map
        Event.FileID).Sublist
      (firstAppearances
        (([⟨EventTypeCreate, "A", "/a", ""⟩, ⟨EventTypeModify, "B", "/b", ""⟩,
          ⟨EventTypeDelete, "A", "/a", ""⟩,
          ⟨EventTypeCreate, "A", "/a", ""⟩] : List Event).map Event.FileID)) := by
  refine ⟨by decide, by decide, by decide⟩

/-- C6 amended: provided no event re-introduces a file id whose entry was
previously dropped by the round-trip or ephemeral rules, the events of
DebounceEvents xs appear in first-appearance order of their file id in xs
(dropped entries omitted): the output id sequence is a sublist of the
first-appearance id list.  (When a dropped id is re-introduced the code
orders it at its re-introduction point instead, as the counterexample
shows.) -/
theorem c6_order_first_appearance (xs : List Event) (h : noReintroB xs = true) :
    ((DebounceEvents xs).map Event.FileID).Sublist
      (firstAppearances (xs.map Event.FileID)) := by
  by_cases hemp : xs.isEmpty
  · rw [List.isEmpty_iff.mp hemp]
    exact List.Sublist.refl _
  · rw [DebounceEvents, if_neg hemp]
    exact (out_ids_sublist _ _).trans
      (c6_aux xs (fun _ => none) [] [] [] h (List.Sublist.refl []) (by simp))

/-- Witness for c6_order_first_appearance on a drop-free input. -/
theorem c6_order_first_appearance_witness :
    noReintroB [⟨EventTypeCreate, "A", "/a", ""⟩, ⟨EventTypeModify, "B", "/b", ""⟩] = true ∧
    ((DebounceEvents
        [⟨EventTypeCreate, "A", "/a", ""⟩, ⟨EventTypeModify, "B", "/b", ""⟩]).map
        Event.FileID).Sublist
      (firstAppearances
        (([⟨EventTypeCreate, "A", "/a", ""⟩,
          ⟨EventTypeModify, "B", "/b", ""⟩] : List Event).map Event.FileID)) :=
  ⟨by decide,
    c6_order_first_appearance
      [⟨EventTypeCreate, "A", "/a", ""⟩, ⟨EventTypeModify, "B", "/b", ""⟩] (by decide)⟩

/-! ## Association-list lemmas for the Go map embedding -/

theorem lookup_none_of_not_mem_keys {α β : Type} [BEq α] [LawfulBEq α] :
    ∀ (l : List (α × β)) (k : α), k ∉ l.map Prod.fst → l.lookup k = none := by
  intro l
  induction l with
  | nil => intro k _; rfl
  | cons p t ih =>
      intro k hk
      simp only [List.map_cons, List.mem_cons] at hk
      push_neg at hk
      have hne : (k == p.1) = false := beq_eq_false_iff_ne.mpr hk.1
      simp [List.lookup, hne, ih k hk.2]

theorem lookup_mem {α β : Type} [BEq α] [LawfulBEq α] :
    ∀ (l : List (α × β)) (k : α) (v : β), l.lookup k = some v → (k, v) ∈ l := by
  intro l
  induction l with
  | nil => intro k v h; cases h
  | cons p t ih =>
      intro k v h
      simp only [List.lookup] at h
      rcases hb : k == p.1 with _ | _
      · rw [hb] at h
        exact List.mem_cons_of_mem p (ih k v h)
      · rw [hb] at h
        cases h
        have hk : k = p.1 := eq_of_beq hb
        rw [hk, Prod.mk.eta]
        exact List.mem_cons_self p t

theorem lookup_map_set {α β : Type} [BEq α] [LawfulBEq α] (k : α) (v : β) :
    ∀ l : List (α × β),
      (l.map (fun p => if p.1 == k then (k, v) else p)).lookup k =
        if l.any (fun p => p.1 == k) then some v else none := by
  intro l
  induction l with
  | nil => rfl
  | cons p t ih =>
      simp only [List.map_cons, List.any_cons]
      rcases Bool.eq_false_or_eq_true (p.1 == k) with hb | hb
      · rw [if_pos hb]
        simp [hb, List.lookup]
      · rw [if_neg (by simp [hb])]
        have hkb : (k == p.1) = false := by
          rcases Bool.eq_false_or_eq_true (k == p.1) with hx | hx
          · rw [eq_of_beq hx, beq_self_eq_true] at hb; cases hb
          · exact hx
        simp only [List.lookup, hkb, ih]
        have hor : (p.1 == k || t.any fun p => p.1 == k) = (t.any fun p => p.1 == k) := by
          rw [hb, Bool.false_or]
        simp only [hor]

theorem lookup_append_single {α β : Type} [BEq α] [LawfulBEq α] (k : α) (v : β) :
    ∀ l : List (α × β), l.any (fun p => p.1 == k) = false →
      (l ++ [(k, v)]).lookup k = some v := by
  intro l
  induction l with
  | nil => intro _; simp [List.lookup]
  | cons p t ih =>
      intro h
      simp only [List.any_cons, Bool.or_eq_false_iff] at h
      have hkb : (k == p.1) = false := by
        rcases hx : k == p.1 with _ | _
        · rfl
        · rw [eq_of_beq hx, beq_self_eq_true] at h; exact absurd h.1 (by decide)
      simp only [List.cons_append, List.lookup, hkb]
      exact ih h.2

theorem alSet_lookup_self {α β : Type} [BEq α] [LawfulBEq α]
    (l : List (α × β)) (k : α) (v : β) : (alSet l k v).lookup k = some v := by
  unfold alSet
  split_ifs with h
  · rw [lookup_map_set, if_pos h]
  · refine lookup_append_single k v l ?_
    rcases Bool.eq_false_or_eq_true (l.any (fun p => p.1 == k)) with hx | hx
    · exact absurd hx h
    · exact hx

theorem lookup_map_set_ne {α β : Type} [BEq α] [LawfulBEq α] (k : α) (v : β) (k2 : α)
    (hne : (k2 == k) = false) :
    ∀ l : List (α × β),
      (l.map (fun p => if p.1 == k then (k, v) else p)).lookup k2 = l.lookup k2 := by
  intro l
  induction l with
  | nil => rfl
  | cons p t ih =>
      simp only [List.map_cons]
      rcases hb : p.1 == k with _ | _
      · simp only [hb, if_neg (by decide : ¬ false = true), List.lookup]
        rcases hx : k2 == p.1 with _ | _
        · exact ih
        · rfl
      · have hp : p.1 = k := eq_of_beq hb
        simp only [hb, if_pos rfl, List.lookup, hp, hne]
        exact ih

theorem lookup_append_single_ne {α β : Type} [BEq α] [LawfulBEq α] (k : α) (v : β) (k2 : α)
    (hne : (k2 == k) = false) :
    ∀ l : List (α × β), (l ++ [(k, v)]).lookup k2 = l.lookup k2 := by
  intro l
  induction l with
  | nil => simp [List.lookup, hne]
  | cons p t ih =>
      simp only [List.cons_append, List.lookup]
      rcases hx : k2 == p.1 with _ | _
      · exact ih
      · rfl

theorem alSet_lookup_ne {α β : Type} [BEq α] [LawfulBEq α]
    (l : List (α × β)) (k : α) (v : β) (k2 : α) (hne : k2 ≠ k) :
    (alSet l k v).lookup k2 = l.lookup k2 := by
  have hkb : (k2 == k) = false := beq_eq_false_iff_ne.mpr hne
  unfold alSet
  split_ifs with h
  · exact lookup_map_set_ne k v k2 hkb l
  · exact lookup_append_single_ne k v k2 hkb l

theorem alErase_lookup_self {α β : Type} [BEq α] [LawfulBEq α] :
    ∀ (l : List (α × β)) (k : α), (alErase l k).lookup k = none := by
  intro l
  induction l with
  | nil => intro k; rfl
  | cons p t ih =>
      intro k
      unfold alErase at ih ⊢
      simp only [List.filter_cons]
      rcases hb : p.1 == k with _ | _
      · simp only [hb, Bool.not_false, if_pos rfl, List.lookup]
        have hkb : (k == p.1) = false := by
          rcases hx : k == p.1 with _ | _
          · rfl
          · rw [eq_of_beq hx, beq_self_eq_true] at hb; cases hb
        simp only [hkb]
        exact ih k
      · simp only [hb, Bool.not_true, if_neg (by decide : ¬ false = true)]
        exact ih k

/-! ## Unsubscribe semantics (C5) and subscribe auth (C7) -/

/-- Counterexample to C5 as stated: unsubscribing an online subscriber with
one buffered event leaves the durable store empty — Stop flushes while the
subscriber is still online, so the pending event is debounced onto the live
channel instead of being persisted. -/
theorem c5_counterexample :
    hubUnsubscribe 100
        ⟨[(42, [("c", ⟨"c", 1, [], false, true, 0, [⟨EventTypeModify, "f", "/f", ""⟩],
          true, some ⟨1, false⟩, 0, false⟩)])], false, []⟩ 42 "c" =
      some ⟨[(42, [("c", ⟨"c", 1, [⟨EventTypeModify, "f", "/f", ""⟩], false, false, 100, [],
        false, some ⟨1, false⟩, 0, false⟩)])], false, []⟩ ∧
    (⟨"c", 1, [], false, true, 0, [⟨EventTypeModify, "f", "/f", ""⟩], true,
      some ⟨1, false⟩, 0, false⟩ : Sub).buffer ≠ [] := by
  refine ⟨by decide, by decide⟩

/-- C5 amended: for a registered, non-closed, online subscriber,
Unsubscribe stops the debounce timer and flushes the buffer through
DebounceEvents onto the live channel with non-blocking sends (not to the
durable store, which is unchanged), clears the buffer, marks the subscriber
offline, and keeps it in the topic registry. -/
theorem c5_unsubscribe_online_flush (now : Nat) (w : HubWorld) (topic : Nat) (id : String)
    (subs : List (String × Sub)) (s : Sub)
    (htop : w.topics.lookup topic = some subs) (hsub : subs.lookup id = some s)
    (hcl : w.hclosed = false) (hon : s.online = true) (hnc : s.closed = false) :
    hubUnsubscribe now w topic id =
      some { w with topics := alSet w.topics topic (alSet subs id
        { s with
          online := false, offlineSince := now, timerArmed := false, buffer := [],
          chBuf := (DebounceEvents s.buffer).foldl nonBlockingSend s.chBuf }) } ∧
    lookupSub ((hubUnsubscribe now w topic id).getD w) topic id =
      some { s with
        online := false, offlineSince := now, timerArmed := false, buffer := [],
        chBuf := (DebounceEvents s.buffer).foldl nonBlockingSend s.chBuf } := by
  obtain ⟨sid, uid, chBuf, chClosed, online, offSince, buffer, timer, owner, cAt, closed⟩ := s
  simp only at hon hnc
  subst hon hnc
  have hmain : hubUnsubscribe now w topic id =
      some { w with topics := alSet w.topics topic (alSet subs id
        ⟨sid, uid, (DebounceEvents buffer).foldl nonBlockingSend chBuf, chClosed, false, now,
          [], false, owner, cAt, false⟩) } := by
    cases hbuf : buffer with
    | nil =>
        simp [hubUnsubscribe, hcl, htop, hsub, subStop, flushLocked, setOffline, hbuf,
          DebounceEvents]
    | cons b bs =>
        simp [hubUnsubscribe, hcl, htop, hsub, subStop, flushLocked, setOffline, hbuf]
  refine ⟨hmain, ?_⟩
  rw [hmain]
  show lookupSub { w with topics := alSet w.topics topic (alSet subs id _) } topic id = _
  rw [lookupSub]
  show (match (alSet w.topics topic (alSet subs id _)).lookup topic with
    | none => none
    | some subs2 => subs2.lookup id) = _
  rw [alSet_lookup_self]
  exact alSet_lookup_self subs id _

/-- Witness for c5_unsubscribe_online_flush at a one-subscriber hub. -/
theorem c5_unsubscribe_online_flush_witness :
    ((⟨[(42, [("c", ⟨"c", 1, [], false, true, 0, [⟨EventTypeModify, "f", "/f", ""⟩], true,
        some ⟨1, false⟩, 0, false⟩)])], false, []⟩ : HubWorld).topics.lookup 42 =
      some [("c", ⟨"c", 1, [], false, true, 0, [⟨EventTypeModify, "f", "/f", ""⟩], true,
        some ⟨1, false⟩, 0, false⟩)]) ∧
    hubUnsubscribe 100
        ⟨[(42, [("c", ⟨"c", 1, [], false, true, 0, [⟨EventTypeModify, "f", "/f", ""⟩],
          true, some ⟨1, false⟩, 0, false⟩)])], false, []⟩ 42 "c" =
      some { (⟨[(42, [("c", ⟨"c", 1, [], false, true, 0, [⟨EventTypeModify, "f", "/f", ""⟩],
          true, some ⟨1, false⟩, 0, false⟩)])], false, []⟩ : HubWorld) with
        topics := alSet
          (⟨[(42, [("c", ⟨"c", 1, [], false, true, 0, [⟨EventTypeModify, "f", "/f", ""⟩],
            true, some ⟨1, false⟩, 0, false⟩)])], false, []⟩ : HubWorld).topics 42
          (alSet [("c", ⟨"c", 1, [], false, true, 0, [⟨EventTypeModify, "f", "/f", ""⟩],
            true, some ⟨1, false⟩, 0, false⟩)] "c"
            { (⟨"c", 1, [], false, true, 0, [⟨EventTypeModify, "f", "/f", ""⟩], true,
                some ⟨1, false⟩, 0, false⟩ : Sub) with
              online := false, offlineSince := 100, timerArmed := false, buffer := [],
              chBuf := (DebounceEvents [⟨EventTypeModify, "f", "/f", ""⟩]).foldl
                nonBlockingSend [] }) } :=
  ⟨rfl,
    (c5_unsubscribe_online_flush 100
      ⟨[(42, [("c", ⟨"c", 1, [], false, true, 0, [⟨EventTypeModify, "f", "/f", ""⟩], true,
        some ⟨1, false⟩, 0, false⟩)])], false, []⟩ 42 "c"
      [("c", ⟨"c", 1, [], false, true, 0, [⟨EventTypeModify, "f", "/f", ""⟩], true,
        some ⟨1, false⟩, 0, false⟩)]
      ⟨"c", 1, [], false, true, 0, [⟨EventTypeModify, "f", "/f", ""⟩], true,
        some ⟨1, false⟩, 0, false⟩ rfl rfl rfl rfl rfl).1⟩

/-- Counterexample to C7 as stated: with a live (non-closed) subscriber
already registered at (42, c), Subscribe with a context carrying no user
succeeds with resumed = true instead of returning an error. -/
theorem c7_counterexample :
    (hubSubscribe 0 none
      ⟨[(42, [("c", ⟨"c", 1, [], false, false, 5, [], false, some ⟨1, false⟩, 0, false⟩)])],
        false, []⟩ 42 "c").1 = .ok true := by
  rfl

/-- C7 amended: on a non-closed hub with no live subscriber at (topic, id)
(either none at all, or only a closed one, which is evicted), Subscribe with
a context carrying no authenticated non-anonymous user returns an error and
leaves no subscriber registered at (topic, id); when a live subscriber
exists it is reactivated and returned without any auth check, as the
counterexample shows. -/
theorem c7_subscribe_auth (now : Nat) (w : HubWorld) (topic : Nat) (id : String)
    (u : Option MUser) (hcl : w.hclosed = false)
    (hu : u = none ∨ ∃ mu, u = some mu ∧ mu.anonymous = true)
    (hno : ∀ s, ((w.topics.lookup topic).getD []).lookup id = some s → s.closed = true) :
    (hubSubscribe now u w topic id).1 = .error "user not found" ∧
    lookupSub (hubSubscribe now u w topic id).2 topic id = none := by
  have hnew : newSubscriber u id now = .error "user not found" := by
    rcases hu with rfl | ⟨mu, rfl, ha⟩
    · rfl
    · simp [newSubscriber, ha]
  cases hlook : ((w.topics.lookup topic).getD []).lookup id with
  | none =>
      have hres : hubSubscribe now u w topic id =
          (.error "user not found",
            { w with topics := alSet w.topics topic ((w.topics.lookup topic).getD []) }) := by
        simp [hubSubscribe, hcl, hlook, hnew]
      rw [hres]
      refine ⟨rfl, ?_⟩
      rw [lookupSub]
      show (match (alSet w.topics topic ((w.topics.lookup topic).getD [])).lookup topic with
        | none => none
        | some subs2 => subs2.lookup id) = none
      rw [alSet_lookup_self]
      exact hlook
  | some s =>
      have hscl : s.closed = true := hno s hlook
      have hres : hubSubscribe now u w topic id =
          (.error "user not found",
            { w with
              topics := alSet w.topics topic
                (alErase ((w.topics.lookup topic).getD []) id) }) := by
        simp [hubSubscribe, hcl, hlook, hnew, hscl]
      rw [hres]
      refine ⟨rfl, ?_⟩
      rw [lookupSub]
      show (match (alSet w.topics topic
          (alErase ((w.topics.lookup topic).getD []) id)).lookup topic with
        | none => none
        | some subs2 => subs2.lookup id) = none
      rw [alSet_lookup_self]
      exact alErase_lookup_self _ id

/-- Witness for c7_subscribe_auth: empty hub, anonymous context. -/
theorem c7_subscribe_auth_witness :
    ((⟨[], false, []⟩ : HubWorld).hclosed = false) ∧
    (hubSubscribe 0 (some ⟨9, true⟩) ⟨[], false, []⟩ 42 "c").1 = .error "user not found" ∧
    lookupSub (hubSubscribe 0 (some ⟨9, true⟩) ⟨[], false, []⟩ 42 "c").2 42 "c" = none :=
  ⟨rfl,
    c7_subscribe_auth 0 ⟨[], false, []⟩ 42 "c" (some ⟨9, true⟩) rfl
      (Or.inr ⟨⟨9, true⟩, rfl, rfl⟩) (fun s hs => by cases hs)⟩

/-! ## Sweeper (C9) -/

theorem lookup_map_values {α β γ : Type} [BEq α] (g : β → γ) :
    ∀ (l : List (α × β)) (k : α),
      (l.map (fun p => (p.1, g p.2))).lookup k = (l.lookup k).map g := by
  intro l
  induction l with
  | nil => intro k; rfl
  | cons p t ih =>
      intro k
      rcases Bool.eq_false_or_eq_true (k == p.1) with hb | hb
      · simp only [List.map_cons, List.lookup, hb]
        rfl
      · simp only [List.map_cons, List.lookup, hb]
        exact ih k

theorem lookup_filter_nodup {α β : Type} [BEq α] [LawfulBEq α] (pred : α × β → Bool) :
    ∀ (l : List (α × β)) (k : α) (v : β), (l.map Prod.fst).Nodup → l.lookup k = some v →
      (l.filter pred).lookup k = if pred (k, v) then some v else none := by
  intro l
  induction l with
  | nil => intro k v _ h; cases h
  | cons p t ih =>
      intro k v hnd hlk
      rw [List.map_cons, List.nodup_cons] at hnd
      simp only [List.filter_cons]
      rcases Bool.eq_false_or_eq_true (k == p.1) with hb | hb
      · simp only [List.lookup, hb] at hlk
        cases hlk
        have hk : k = p.1 := eq_of_beq hb
        have hpv : (k, p.2) = p := by rw [hk]
        rcases Bool.eq_false_or_eq_true (pred p) with hp | hp
        · rw [if_pos hp]
          simp [List.lookup, hb, hpv, hp]
        · rw [if_neg (by simp [hp])]
          have hnotk : k ∉ (List.filter pred t).map Prod.fst := by
            intro hmem
            exact hnd.1 (hk ▸ (List.Sublist.map Prod.fst (List.filter_sublist t)).mem hmem)
          rw [lookup_none_of_not_mem_keys _ k hnotk, hpv, hp]
          simp
      · simp only [List.lookup, hb] at hlk
        rcases Bool.eq_false_or_eq_true (pred p) with hp | hp
        · rw [if_pos hp]
          simp only [List.lookup, hb]
          exact ih k v hnd.2 hlk
        · rw [if_neg (by simp [hp])]
          exact ih k v hnd.2 hlk

theorem mem_foldl_append {α β : Type} (f : β → List α) :
    ∀ (l : List β) (acc : List α) (x : α),
      x ∈ l.foldl (fun a b => a ++ f b) acc ↔ x ∈ acc ∨ ∃ b ∈ l, x ∈ f b := by
  intro l
  induction l with
  | nil => intro acc x; simp
  | cons b t ih =>
      intro acc x
      rw [List.foldl_cons, ih (acc ++ f b) x]
      simp only [List.mem_append, List.mem_cons]
      constructor
      · rintro ((h | h) | ⟨c, hc, hx⟩)
        · exact Or.inl h
        · exact Or.inr ⟨b, Or.inl rfl, h⟩
        · exact Or.inr ⟨c, Or.inr hc, hx⟩
      · rintro (h | ⟨c, (rfl | hc), hx⟩)
        · exact Or.inl (Or.inl h)
        · exact Or.inl (Or.inr hx)
        · exact Or.inr ⟨c, hc, hx⟩

/-- C9: one sweep over a non-closed hub removes exactly the expired
subscribers.  A registered subscriber with online = false, a non-zero
offline stamp and offline age strictly over 14 days is closed and removed
from its topic (emptied topics disappear from the registry because their
entry is filtered out); every other registered subscriber remains with its
state untouched. -/
theorem c9_sweep_exact (now : Nat) (w : HubWorld) (topic : Nat) (id : String) (s : Sub)
    (hcl : w.hclosed = false)
    (hndT : (w.topics.map Prod.fst).Nodup)
    (hndS : ∀ p ∈ w.topics, (p.2.map Prod.fst).Nodup)
    (hlook : lookupSub w topic id = some s) :
    (shouldExpire now s = true →
      lookupSub (cleanupExpiredSubscribers now w).1 topic id = none ∧
      closeFields s ∈ (cleanupExpiredSubscribers now w).2 ∧
      (closeFields s).closed = true) ∧
    (shouldExpire now s = false →
      lookupSub (cleanupExpiredSubscribers now w).1 topic id = some s) := by
  rw [lookupSub] at hlook
  cases htl : w.topics.lookup topic with
  | none => rw [htl] at hlook; cases hlook
  | some subs =>
      rw [htl] at hlook
      have hmem_t : (topic, subs) ∈ w.topics := lookup_mem _ _ _ htl
      have hnds : (subs.map Prod.fst).Nodup := hndS _ hmem_t
      have hmem_s : (id, s) ∈ subs := lookup_mem _ _ _ hlook
      have hw1 : (cleanupExpiredSubscribers now w).1.topics =
          (w.topics.map (fun p => (p.1, p.2.filter (fun q => !shouldExpire now q.2)))).filter
            (fun p => !p.2.isEmpty) := by
        simp [cleanupExpiredSubscribers, hcl]
      have hw2 : (cleanupExpiredSubscribers now w).2 =
          w.topics.foldl (fun acc p => acc ++ (p.2.filter (fun q => shouldExpire now q.2)).map
            (fun q => closeFields q.2)) [] := by
        simp [cleanupExpiredSubscribers, hcl]
      have hmap : (w.topics.map
          (fun p => (p.1, p.2.filter (fun q => !shouldExpire now q.2)))).lookup topic =
          some (subs.filter (fun q => !shouldExpire now q.2)) := by
        rw [lookup_map_values, htl]
        rfl
      have hmapnd : ((w.topics.map
          (fun p => (p.1, p.2.filter (fun q => !shouldExpire now q.2)))).map Prod.fst).Nodup := by
        rw [List.map_map]
        exact hndT
      have houter := lookup_filter_nodup (fun p => !p.2.isEmpty) _ topic
        (subs.filter (fun q => !shouldExpire now q.2)) hmapnd hmap
      constructor
      · intro hexp
        have hinner : (subs.filter (fun q => !shouldExpire now q.2)).lookup id = none := by
          have h := lookup_filter_nodup (fun q => !shouldExpire now q.2) subs id s hnds hlook
          rw [h]
          simp [hexp]
        refine ⟨?_, ?_, rfl⟩
        · rw [lookupSub, hw1, houter]
          rcases Bool.eq_false_or_eq_true
            ((subs.filter (fun q => !shouldExpire now q.2)).isEmpty) with he | he
          · simp [he]
          · simp [he, hinner]
        · rw [hw2, mem_foldl_append]
          refine Or.inr ⟨(topic, subs), hmem_t, ?_⟩
          have hfm : (id, s) ∈ List.filter (fun q => shouldExpire now q.2) subs := by
            rw [List.mem_filter]
            exact ⟨hmem_s, hexp⟩
          exact List.mem_map_of_mem (fun q : String × Sub => closeFields q.2) hfm
      · intro hkeep
        have hfmem : (id, s) ∈ subs.filter (fun q => !shouldExpire now q.2) := by
          rw [List.mem_filter]
          exact ⟨hmem_s, by rw [hkeep]; rfl⟩
        have hne : (subs.filter (fun q => !shouldExpire now q.2)).isEmpty = false := by
          rcases Bool.eq_false_or_eq_true
            ((subs.filter (fun q => !shouldExpire now q.2)).isEmpty) with he | he
          · rw [List.isEmpty_iff.mp he] at hfmem
            cases hfmem
          · exact he
        have hinner : (subs.filter (fun q => !shouldExpire now q.2)).lookup id = some s := by
          have h := lookup_filter_nodup (fun q => !shouldExpire now q.2) subs id s hnds hlook
          rw [h]
          simp [hkeep]
        rw [lookupSub, hw1, houter]
        simp [hne, hinner]

/-- Witness for c9_sweep_exact: a hub with one subscriber offline for 15
days at sweep time (now in nanoseconds). -/
theorem c9_sweep_exact_witness :
    ((⟨[(42, [("c", ⟨"c", 1, [], false, false, 1, [], false, some ⟨1, false⟩, 0, false⟩)])],
        false, []⟩ : HubWorld).hclosed = false ∧
      shouldExpire 1296000000000001
        (⟨"c", 1, [], false, false, 1, [], false, some ⟨1, false⟩, 0, false⟩ : Sub) = true) ∧
    (lookupSub (cleanupExpiredSubscribers 1296000000000001
        ⟨[(42, [("c", ⟨"c", 1, [], false, false, 1, [], false, some ⟨1, false⟩, 0,
          false⟩)])], false, []⟩).1 42 "c" = none ∧
      closeFields ⟨"c", 1, [], false, false, 1, [], false, some ⟨1, false⟩, 0, false⟩ ∈
        (cleanupExpiredSubscribers 1296000000000001
          ⟨[(42, [("c", ⟨"c", 1, [], false, false, 1, [], false, some ⟨1, false⟩, 0,
            false⟩)])], false, []⟩).2 ∧
      (closeFields ⟨"c", 1, [], false, false, 1, [], false, some ⟨1, false⟩, 0,
        false⟩).closed = true) :=
  ⟨⟨rfl, by decide⟩,
    (c9_sweep_exact 1296000000000001
      ⟨[(42, [("c", ⟨"c", 1, [], false, false, 1, [], false, some ⟨1, false⟩, 0, false⟩)])],
        false, []⟩ 42 "c"
      ⟨"c", 1, [], false, false, 1, [], false, some ⟨1, false⟩, 0, false⟩ rfl
      (by decide) (by decide) rfl).1 (by decide)⟩

/-! ## Owner-cache nil dereference (C10) -/

/-- C10: the claim says a flush in the offline state always persists the
buffer under the cached owner's ID.  In the code this dereferences
s.ownerCached without a nil check, and setOnline sets ownerCached to nil:
after a reconnect (setOnline), a disconnect (setOffline with an empty
buffer, so that flush is a no-op), a Publish and the debounce-timer flush,
flushLocked hits s.ownerCached.ID with ownerCached == nil — a nil-pointer
panic (modelled as none).  The middle conjunct exhibits the panic state:
online = false, offlineSince stamped, ownerCached = none, not closed, with
a non-empty buffer after the Publish. -/
theorem c10_owner_cache_nil_deref :
    newSubscriber (some ⟨1, false⟩) "c" 0 =
      .ok ⟨"c", 1, [], false, true, 0, [], false, some ⟨1, false⟩, 0, false⟩ ∧
    (runOps [SubOp.goOnline, SubOp.goOffline 50, SubOp.publishE ⟨EventTypeModify, "f", "/f", ""⟩]
        (⟨"c", 1, [], false, true, 0, [], false, some ⟨1, false⟩, 0, false⟩, [])).map
      (fun w => (w.1.online, w.1.offlineSince, w.1.ownerCached, w.1.closed,
        w.1.buffer.isEmpty)) = some (false, 50, none, false, false) ∧
    runOps [SubOp.goOnline, SubOp.goOffline 50,
        SubOp.publishE ⟨EventTypeModify, "f", "/f", ""⟩, SubOp.timerFlush]
      (⟨"c", 1, [], false, true, 0, [], false, some ⟨1, false⟩, 0, false⟩, []) = none :=
  ⟨rfl, by decide, by decide⟩

end Cloudreve
